import Mathlib

/-!
A shallow embedding of the schema / row-validation / CSV import-export core of
`src/data_apk.py` (a Streamlit data-entry app built on pandas).  Pure Python
helpers are translated directly; the pandas and Python-builtin calls the code
makes (`float`, `str`, `pd.to_datetime`, `pd.read_csv`, `DataFrame.to_csv`)
are modelled explicitly below, at the level of the values they exchange.
-/

deriving instance DecidableEq for Except

namespace DataApk

/-! ## Characters and decimal digits -/

def digitChar (d : ℕ) : Char := Char.ofNat (48 + d)

def charDigit (c : Char) : ℕ := c.toNat - 48

/-- Little-endian base-10 digits, with explicit fuel so that the kernel can
evaluate it (`Nat.digits` is defined by well-founded recursion). -/
def natDigitsFuel : ℕ → ℕ → List ℕ
  | 0, _ => []
  | fuel + 1, n => if n = 0 then [] else n % 10 :: natDigitsFuel fuel (n / 10)

/-- Big-endian digit characters of a natural number. -/
def printNatChars (n : ℕ) : List Char :=
  if n = 0 then ['0'] else (natDigitsFuel n n).reverse.map digitChar

/-- Value of a big-endian run of digit characters (leading zeros allowed). -/
def digitsToNat (l : List Char) : ℕ :=
  l.foldl (fun a c => 10 * a + charDigit c) 0

/-- Strip leading and trailing whitespace, the model of Python `str.strip()`. -/
def stripWs (l : List Char) : List Char :=
  ((l.dropWhile Char.isWhitespace).reverse.dropWhile Char.isWhitespace).reverse

def pyStrip (s : String) : String := ⟨stripWs s.data⟩

/-! ## Python floats, modelled exactly

Float values reaching this core are produced by `float()` on text, by pandas
numeric columns, or are passed through unchanged; we model them as exact
decimal numbers `m / 10 ^ k` plus the special values, ignoring binary
rounding (no claim depends on it).  The pair is kept normalized — trailing
zero decimals stripped — so that structural equality is value equality. -/

inductive PFloat where
  | nan : PFloat
  | inf (neg : Bool) : PFloat
  | fin (m : ℤ) (k : ℕ) : PFloat
deriving DecidableEq

def pow10 : ℕ → ℤ
  | 0 => 1
  | k + 1 => 10 * pow10 k

def natPow10 : ℕ → ℕ
  | 0 => 1
  | k + 1 => 10 * natPow10 k

/-- Strip trailing zero decimals from `m / 10 ^ k` (zero collapses to scale
0), producing the normal form of a decimal float. -/
def stripZeros : ℤ → ℕ → ℤ × ℕ
  | m, 0 => (m, 0)
  | m, k + 1 => if m % 10 = 0 then stripZeros (m / 10) k else (m, k + 1)

def mkFin (m : ℤ) (k : ℕ) : PFloat := .fin (stripZeros m k).1 (stripZeros m k).2

/-- Scale a parsed mantissa `m / 10 ^ k` by `10 ^ e`. -/
def applyExp (m : ℤ) (k : ℕ) (e : ℤ) : PFloat :=
  if (k : ℤ) ≤ e then mkFin (m * pow10 (e - k).toNat) 0
  else mkFin m ((k : ℤ) - e).toNat

def splitSign : List Char → Bool × List Char
  | [] => (false, [])
  | c :: r =>
    if c = '+' then (false, r) else if c = '-' then (true, r) else (false, c :: r)

def lowerChars (l : List Char) : List Char := l.map Char.toLower

/-- Integer-part / fraction-part grammar of a float literal: a digit run,
optionally a point and a second digit run, at least one digit in total.
Returns the mantissa and decimal scale (value: `mant / 10 ^ scale`). -/
def parseDecimalBody (l : List Char) : Option ((ℕ × ℕ) × List Char) :=
  let ip := l.takeWhile Char.isDigit
  let r1 := l.dropWhile Char.isDigit
  match r1 with
  | '.' :: r2 =>
    let fp := r2.takeWhile Char.isDigit
    let r3 := r2.dropWhile Char.isDigit
    if ip.isEmpty && fp.isEmpty then none
    else some ((digitsToNat ip * natPow10 fp.length + digitsToNat fp, fp.length), r3)
  | _ => if ip.isEmpty then none else some ((digitsToNat ip, 0), r1)

def parseExpPart (l : List Char) : Option (ℤ × List Char) :=
  match l with
  | 'e' :: r | 'E' :: r =>
    let (sg, r2) := splitSign r
    let ds := r2.takeWhile Char.isDigit
    let r3 := r2.dropWhile Char.isDigit
    if ds.isEmpty then none
    else some (if sg then -(digitsToNat ds : ℤ) else (digitsToNat ds : ℤ), r3)
  | _ => some (0, l)

/-- Model of Python `float(string)`: strip whitespace, optional sign, then
`inf`/`infinity`/`nan` (case-insensitive) or a decimal literal with optional
exponent.  (Underscore separators and binary rounding are not modelled; no
claim touches them.) -/
def parseFloatL (l0 : List Char) : Option PFloat :=
  let l1 := stripWs l0
  let sgn := splitSign l1
  let lw := lowerChars sgn.2
  if lw = "inf".data ∨ lw = "infinity".data then some (.inf sgn.1)
  else if lw = "nan".data then some .nan
  else
    match parseDecimalBody sgn.2 with
    | none => none
    | some (mant, r1) =>
      match parseExpPart r1 with
      | none => none
      | some (e, r2) =>
        if r2.isEmpty then
          some (applyExp (if sgn.1 then -(mant.1 : ℤ) else (mant.1 : ℤ)) mant.2 e)
        else none

def parseFloat (s : String) : Option PFloat := parseFloatL s.data

def padNatChars (w n : ℕ) : List Char :=
  List.replicate (w - (printNatChars n).length) '0' ++ printNatChars n

/-- Exact decimal rendering of a normalized decimal float, with at least one
fraction digit: the model of Python `repr(float)` on the floats this program
constructs (always shows a point, e.g. `3.0`; scientific notation for
extreme magnitudes is not modelled). -/
def reprFin (m : ℤ) (k : ℕ) : List Char :=
  (if m < 0 then ['-'] else []) ++
    printNatChars (m.natAbs / natPow10 k) ++
    '.' :: (if k = 0 then ['0'] else padNatChars k (m.natAbs % natPow10 k))

def reprFloat : PFloat → List Char
  | .nan => "nan".data
  | .inf true => "-inf".data
  | .inf false => "inf".data
  | .fin m k => reprFin m k

/-! ## Python dates -/

structure PyDate where
  year : ℕ
  month : ℕ
  day : ℕ
deriving DecidableEq

def isLeapYear (y : ℕ) : Bool := y % 4 == 0 && (y % 100 != 0 || y % 400 == 0)

def daysInMonth (y m : ℕ) : ℕ :=
  if m = 2 then (if isLeapYear y then 29 else 28)
  else if m = 4 ∨ m = 6 ∨ m = 9 ∨ m = 11 then 30
  else 31

/-- Validity of a `datetime.date` (years 1..9999 as in Python). -/
def validDate (d : PyDate) : Bool :=
  decide (1 ≤ d.year) && decide (d.year ≤ 9999) && decide (1 ≤ d.month) &&
    decide (d.month ≤ 12) && decide (1 ≤ d.day) &&
    decide (d.day ≤ daysInMonth d.year d.month)

/-- Lexicographic order on dates. -/
def dateLE (a b : PyDate) : Bool :=
  decide (a.year < b.year) ||
    (a.year == b.year && (decide (a.month < b.month) ||
      (a.month == b.month && decide (a.day ≤ b.day))))

/-- First calendar day representable as a (midnight) pandas ns `Timestamp`. -/
def tsMinDate : PyDate := ⟨1677, 9, 22⟩

/-- Last calendar day whose midnight fits in a pandas ns `Timestamp`. -/
def tsMaxDate : PyDate := ⟨2262, 4, 11⟩

def isoDateChars (d : PyDate) : List Char :=
  padNatChars 4 d.year ++ '-' :: padNatChars 2 d.month ++ '-' :: padNatChars 2 d.day

def isoDate (d : PyDate) : String := ⟨isoDateChars d⟩

/-- Model of `pd.to_datetime(string).date()` on the ISO `Y-M-D` grammar (the
permissive parser accepts far more; exported tables only contain this form).
Out-of-range components and dates outside the ns-`Timestamp` span fail, as in
pandas. -/
def parseDateChars (l0 : List Char) : Option PyDate :=
  let l := stripWs l0
  let ys := l.takeWhile Char.isDigit
  match l.dropWhile Char.isDigit with
  | '-' :: r2 =>
    let ms := r2.takeWhile Char.isDigit
    match r2.dropWhile Char.isDigit with
    | '-' :: r4 =>
      let ds := r4.takeWhile Char.isDigit
      let r5 := r4.dropWhile Char.isDigit
      if ys.isEmpty || ms.isEmpty || ds.isEmpty || !r5.isEmpty then none
      else
        let d : PyDate := ⟨digitsToNat ys, digitsToNat ms, digitsToNat ds⟩
        if validDate d && dateLE tsMinDate d && dateLE d tsMaxDate then some d
        else none
    | _ => none
  | _ => none

/-- Civil-calendar date of a day offset from 1970-01-01 (Hinnant's
algorithm); used only to model `pd.to_datetime` applied to a number (epoch
nanoseconds). -/
def civilFromDays (z0 : ℤ) : PyDate :=
  let z := z0 + 719468
  let era := Int.fdiv z 146097
  let doe := (z - era * 146097).toNat
  let yoe := (doe - doe / 1460 + doe / 36524 - doe / 146096) / 365
  let doy := doe - (365 * yoe + yoe / 4 - yoe / 100)
  let mp := (5 * doy + 2) / 153
  let dd := doy - (153 * mp + 2) / 5 + 1
  let mm := if mp < 10 then mp + 3 else mp - 9
  let yy := (era * 400 + yoe + (if mm ≤ 2 then 1 else 0)).toNat
  ⟨yy, mm, dd⟩

/-! ## Raw values

The Python values that can reach `validate_and_cast`: `None`, strings (from
text widgets or object CSV columns), ints, floats and bools (from inferred
CSV columns), and `datetime.date` (from the date widget). -/

inductive Raw where
  | none : Raw
  | str (s : String) : Raw
  | int (n : ℤ) : Raw
  | num (f : PFloat) : Raw
  | bool (b : Bool) : Raw
  | date (d : PyDate) : Raw
deriving DecidableEq

def intReprChars (n : ℤ) : List Char :=
  if n < 0 then '-' :: printNatChars n.natAbs else printNatChars n.natAbs

/-- Model of Python `str(val)` on the raw values above. -/
def pyStrRaw : Raw → String
  | .none => "None"
  | .str s => s
  | .int n => ⟨intReprChars n⟩
  | .num f => ⟨reprFloat f⟩
  | .bool b => if b then "True" else "False"
  | .date d => isoDate d

/-- Model of Python `float(val)`; the error strings mirror CPython's. -/
def pyFloatRaw : Raw → Except String PFloat
  | .none => .error "float() argument must be a string or a real number, not 'NoneType'"
  | .str s =>
    match parseFloat s with
    | some f => .ok f
    | Option.none => .error ("could not convert string to float: '" ++ s ++ "'")
  | .int n => .ok (.fin n 0)
  | .num f => .ok f
  | .bool b => .ok (.fin (if b then 1 else 0) 0)
  | .date _ => .error "float() argument must be a string or a real number, not 'datetime.date'"

/-- Nanoseconds per day. -/
def nsPerDay : ℤ := 86400 * 1000000000

/-- Model of `pd.to_datetime(val).date()` for non-date raws: strings go
through the ISO parser; numbers are epoch nanoseconds; `NaN` gives `NaT`,
whose `.date()` raises. -/
def pdToDatetimeDateRaw : Raw → Except String PyDate
  | .str s =>
    match parseDateChars s.data with
    | some d => .ok d
    | Option.none => .error ("Unknown datetime string format, unable to parse: " ++ s)
  | .int n =>
    if n.natAbs < 2 ^ 63 then .ok (civilFromDays (Int.fdiv n nsPerDay))
    else .error "Out of bounds nanosecond timestamp"
  | .num .nan => .error "NaTType does not support date"
  | .num (.inf _) => .error "cannot convert float infinity to integer"
  | .num (.fin m k) =>
    if (Int.fdiv m (pow10 k)).natAbs < 2 ^ 63 then
      .ok (civilFromDays (Int.fdiv (Int.fdiv m (pow10 k)) nsPerDay))
    else .error "Out of bounds nanosecond timestamp"
  | .bool _ => .error "<class 'numpy.bool_'> is not convertible to datetime"
  | .none => .error "NaTType does not support date"
  | .date d => .ok d

/-! ## Schema, typed values, rows -/

inductive FType where
  | shortText | longText | number | date
deriving DecidableEq

/-- The type strings used in the app's schema dicts. -/
def ftypeStr : FType → String
  | .shortText => "short text"
  | .longText => "long text"
  | .number => "number"
  | .date => "date"

inductive Value where
  | null : Value
  | str (s : String) : Value
  | num (f : PFloat) : Value
  | date (d : PyDate) : Value
deriving DecidableEq

structure Field where
  name : String
  ftype : FType
deriving DecidableEq

/-- A Python dict, modelled as an ordered association list with the
assign-or-append update of dict item assignment. -/
abbrev Row := List (String × Value)

abbrev RawRow := List (String × Raw)

def dictInsert (r : Row) (k : String) (v : Value) : Row :=
  match r with
  | [] => [(k, v)]
  | (k2, v2) :: t => if k2 = k then (k, v) :: t else (k2, v2) :: dictInsert t k v

/-- `row_dict.get(name, None)`. -/
def dictGetRaw (r : RawRow) (k : String) : Raw :=
  match r.lookup k with
  | some v => v
  | Option.none => Raw.none

def castErrMsg (name : String) (ft : FType) (e : String) : String :=
  "Error casting field '" ++ name ++ "' to " ++ ftypeStr ft ++ ": " ++ e

/-- The absent-value normalization at the head of the loop body
(src/data_apk.py lines 57-59): a whitespace-only string becomes `None`. -/
def normRaw : Raw → Raw
  | .str s => if pyStrip s = "" then Raw.none else .str s
  | r => r

/-- The casting part of the loop body (src/data_apk.py lines 60-75): `None`
stores `null`; otherwise the value is cast according to the field type, any
exception becoming the formatted error value. -/
def castCore (name : String) (ft : FType) (val : Raw) : Except String Value :=
  if val = Raw.none then .ok .null
  else
    match ft with
    | .number =>
      match pyFloatRaw val with
      | .ok f => .ok (.num f)
      | .error e => .error (castErrMsg name ft e)
    | .date =>
      match val with
      | .date d => .ok (.date d)
      | _ =>
        match pdToDatetimeDateRaw val with
        | .ok d => .ok (.date d)
        | .error e => .error (castErrMsg name ft e)
    | _ => .ok (.str (pyStrRaw val))

/-- The per-field body of `validate_and_cast` (src/data_apk.py lines 54-75). -/
def castValue (name : String) (ft : FType) (raw : Raw) : Except String Value :=
  castCore name ft (normRaw raw)

def vcLoop (rowd : RawRow) : List Field → Row → Except String Row
  | [], out => .ok out
  | f :: rest, out =>
    match castValue f.name f.ftype (dictGetRaw rowd f.name) with
    | .ok v => vcLoop rowd rest (dictInsert out f.name v)
    | .error e => .error e

/-- `validate_and_cast` (src/data_apk.py lines 48-76): builds the typed row
field by field in schema order, stopping at the first cast error. -/
def validate_and_cast (schema : List Field) (rowd : RawRow) : Except String Row :=
  vcLoop rowd schema []

/-! ## Session state and the UI handlers -/

structure SessionState where
  schema : List Field
  rows : List Row
deriving DecidableEq

/-- The add-row submit handler (src/data_apk.py lines 201-208): append the
cast row on success, leave the store untouched on a cast error. -/
def submitRow (st : SessionState) (rawRow : RawRow) : SessionState :=
  match validate_and_cast st.schema rawRow with
  | .ok r => ⟨st.schema, st.rows ++ [r]⟩
  | .error _ => st

/-- Draft fields: the `temp_fields` dict, as the ordered name/type pairs for
indices `0..`, with the dict-lookup defaults `''` and `'short text'`. -/
def draftName (draft : List (String × FType)) (i : ℕ) : String :=
  match draft[i]? with
  | some p => p.1
  | Option.none => ""

def draftType (draft : List (String × FType)) (i : ℕ) : FType :=
  match draft[i]? with
  | some p => p.2
  | Option.none => .shortText

def trimmedName (draft : List (String × FType)) (i : ℕ) : String :=
  pyStrip (draftName draft i)

/-- The save-schema scan (src/data_apk.py lines 132-150), with the `seen` set
and the accumulated fields threaded through. -/
def commitGo (draft : List (String × FType)) :
    List ℕ → List String → List Field → Except String (List String × List Field)
  | [], seen, acc => .ok (seen, acc)
  | i :: rest, seen, acc =>
    let nm := trimmedName draft i
    if nm = "" then .error ("Variable name #" ++ toString (i + 1) ++ " is empty.")
    else if nm ∈ seen then .error ("Duplicate variable name: '" ++ nm ++ "'.")
    else commitGo draft rest (nm :: seen) (acc ++ [⟨nm, draftType draft i⟩])

/-- `commitSchema`: validate the draft names in order (src/data_apk.py lines
132-150). -/
def commitSchema (numVars : ℕ) (draft : List (String × FType)) :
    Except String (List Field) :=
  (commitGo draft (List.range numVars) [] []).map Prod.snd

/-- The save-schema handler (src/data_apk.py lines 151-157): on success
install the new schema and clear all rows; on failure only show the message. -/
def saveSchema (st : SessionState) (numVars : ℕ) (draft : List (String × FType)) :
    SessionState :=
  match commitSchema numVars draft with
  | .ok s => ⟨s, []⟩
  | .error _ => st

/-! ## The CSV layer

`pd.read_csv` and `DataFrame.to_csv` are modelled at the level of records
(lists of cell strings): standard CSV quoting is a bijection between a cell's
text and its field on the line, so nothing is lost by staying above it. -/

/-- pandas' default `na_values` tokens: cells read as `NaN`. -/
def naTokens : List String :=
  ["", "#N/A", "#N/A N/A", "#NA", "-1.#IND", "-1.#QNAN", "-NaN", "-nan",
   "1.#IND", "1.#QNAN", "<NA>", "N/A", "NA", "NULL", "NaN", "None", "n/a",
   "nan", "null"]

/-- pandas' default truth/falsehood cells for bool column inference
(the `_true_values` / `_false_values` sets of `pandas/_libs/parsers.pyx`). -/
def parseBoolToken (s : String) : Option Bool :=
  if s = "TRUE" ∨ s = "True" ∨ s = "true" then some true
  else if s = "FALSE" ∨ s = "False" ∨ s = "false" then some false
  else Option.none

/-- Integer-literal test used for pandas' int64 column inference. -/
def parseIntStr (s : String) : Option ℤ :=
  let l := stripWs s.data
  let sgn := splitSign l
  if !sgn.2.isEmpty && sgn.2.all Char.isDigit then
    some (if sgn.1 then -(digitsToNat sgn.2 : ℤ) else (digitsToNat sgn.2 : ℤ))
  else none

/-- pandas column-type inference, per column, following the reader's
`dtype_cast_order` (int64, float64, bool, object): all cells integral (and
none missing) gives an int64 column; all cells numeric-or-missing gives a
float64 column with `NaN` for the missing cells; all cells
truth-token-or-missing gives bools with `NaN` for the missing cells;
anything else gives an object column of strings, still with `NaN` for the
missing cells. -/
def inferColumn (cells : List String) : List Raw :=
  if cells.all fun c => decide (c ∉ naTokens) && (parseIntStr c).isSome then
    cells.map fun c =>
      match parseIntStr c with
      | some n => Raw.int n
      | Option.none => Raw.none
  else if cells.all fun c => decide (c ∈ naTokens) || (parseFloat c).isSome then
    cells.map fun c =>
      if c ∈ naTokens then Raw.num .nan
      else
        match parseFloat c with
        | some f => Raw.num f
        | Option.none => Raw.none
  else if cells.all fun c => decide (c ∈ naTokens) || (parseBoolToken c).isSome then
    cells.map fun c =>
      if c ∈ naTokens then Raw.num .nan
      else
        match parseBoolToken c with
        | some b => Raw.bool b
        | Option.none => Raw.none
  else
    cells.map fun c => if c ∈ naTokens then Raw.num .nan else Raw.str c

/-- A parsed DataFrame: named columns of raw values (all the same length). -/
abbrev Df := List (String × List Raw)

def dfColNames (df : Df) : List String := df.map Prod.fst

def dfRowCount (df : Df) : ℕ := (df.map fun p => p.2.length).foldr max 0

/-- `df[expected_cols]`: project/reorder onto the given column names. -/
def dfProject (df : Df) (cols : List String) : Df :=
  cols.map fun c =>
    (c, match df.find? fun p => p.1 == c with
        | some p => p.2
        | Option.none => [])

/-- `for _, r in df.iterrows(): rowdict = r.to_dict()`. -/
def rowDicts (df : Df) : List RawRow :=
  (List.range (dfRowCount df)).map fun i =>
    df.map fun p => (p.1, p.2.getD i Raw.none)

/-- Model of `pd.read_csv` on the records of an uploaded file: the first
record is the header; blank lines are skipped; a record wider than the
header is a tokenizing error; short records are padded with missing cells;
then each column's type is inferred. -/
def readCsvE (file : List (List String)) : Except String Df :=
  match file with
  | [] => .error "No columns to parse from file"
  | header :: rest =>
    let dataRows := rest.filter fun r => decide (r ≠ [""])
    if dataRows.any fun r => decide (header.length < r.length) then
      .error "Error tokenizing data."
    else
      .ok ((List.range header.length).map fun j =>
        (header.getD j "", inferColumn (dataRows.map fun r => r.getD j "")))

inductive UploadOutcome where
  | readError (msg : String)
  | formatError (msg : String)
  | report (added : ℕ) (shown : List String)
deriving DecidableEq

/-- Python `repr` of a list of strings, as f-string interpolation shows it. -/
def pyStrListRepr (l : List String) : String :=
  "[" ++ String.intercalate ", " (l.map fun s => "'" ++ s ++ "'") ++ "]"

/-- The row loop of the CSV upload handler (src/data_apk.py lines 224-234). -/
def importLoop (schema : List Field) :
    List RawRow → List Row → List String → ℕ → List Row × List String × ℕ
  | [], rows, bad, added => (rows, bad, added)
  | r :: rest, rows, bad, added =>
    match validate_and_cast schema r with
    | .ok res => importLoop schema rest (rows ++ [res]) bad (added + 1)
    | .error e => importLoop schema rest rows (bad ++ [e]) added

/-- The CSV upload handler after a successful read (src/data_apk.py lines
216-238): check for missing schema columns, project onto them, validate each
row, append the good ones, and report the added count plus at most the first
five error messages. -/
def importDf (st : SessionState) (df : Df) : SessionState × UploadOutcome :=
  let expected := st.schema.map Field.name
  let missing := expected.filter fun c => decide (c ∉ dfColNames df)
  if missing ≠ [] then
    (st, .formatError ("Missing columns in uploaded CSV: " ++ pyStrListRepr missing))
  else
    let res := importLoop st.schema (rowDicts (dfProject df expected)) st.rows [] 0
    (⟨st.schema, res.1⟩, .report res.2.2 (res.2.1.take 5))

/-- The whole upload path (src/data_apk.py lines 213-240): any failure of
the read itself is caught and shown as `Error reading CSV: ...`. -/
def uploadCsv (st : SessionState) (file : List (List String)) :
    SessionState × UploadOutcome :=
  match readCsvE file with
  | .ok df => importDf st df
  | .error e => (st, .readError ("Error reading CSV: " ++ e))

/-- Cell rendering of `DataFrame.to_csv`: missing values (`None` / `NaN`)
become the empty field, floats their repr, dates their ISO form, text
itself. -/
def exportCell : Value → String
  | .null => ""
  | .str s => s
  | .num .nan => ""
  | .num f => ⟨reprFloat f⟩
  | .date d => isoDate d

/-- The cell of row `r` in column `f`: the looked-up value, a missing key
rendering as a missing cell. -/
def valueAt (r : Row) (f : Field) : Value :=
  match r.lookup f.name with
  | some v => v
  | Option.none => Value.null

/-- `schema_to_dataframe` plus `to_csv(index=False)` (src/data_apk.py lines
41-45 and 249): a header of the schema names, then one record per row in
schema column order. -/
def exportCsvFile (schema : List Field) (rows : List Row) : List (List String) :=
  (schema.map Field.name) ::
    rows.map fun r => schema.map fun f => exportCell (valueAt r f)

/-! ## Supporting lemmas -/

lemma commitGo_append (draft : List (String × FType)) (is js : List ℕ)
    (seen : List String) (acc : List Field) :
    commitGo draft (is ++ js) seen acc =
      match commitGo draft is seen acc with
      | .ok p => commitGo draft js p.1 p.2
      | .error e => .error e := by
  induction is generalizing seen acc with
  | nil => rfl
  | cons i is ih =>
    simp only [List.cons_append, commitGo]
    by_cases h1 : trimmedName draft i = ""
    · simp [h1]
    · by_cases h2 : trimmedName draft i ∈ seen
      · simp [h1, h2]
      · simp [h1, h2, ih]

lemma commitGo_range_ok (draft : List (String × FType)) (i : ℕ)
    (hpre : ∀ j, j < i → trimmedName draft j ≠ "")
    (hinj : ∀ j, j < i → ∀ k, k < i →
      trimmedName draft j = trimmedName draft k → j = k) :
    ∃ seen acc, commitGo draft (List.range i) [] [] = .ok (seen, acc) ∧
      ∀ s, s ∈ seen ↔ ∃ j, j < i ∧ trimmedName draft j = s := by
  induction i with
  | zero => exact ⟨[], [], rfl, by simp⟩
  | succ i ih =>
    obtain ⟨seen, acc, hok, hmem⟩ :=
      ih (fun j hj => hpre j (by omega))
        (fun j hj k hk => hinj j (by omega) k (by omega))
    have hne : trimmedName draft i ≠ "" := hpre i (by omega)
    have hnotin : trimmedName draft i ∉ seen := by
      intro hin
      obtain ⟨j, hj, hej⟩ := (hmem _).mp hin
      have := hinj j (by omega) i (by omega) hej
      omega
    refine ⟨trimmedName draft i :: seen, acc ++ [⟨trimmedName draft i, draftType draft i⟩], ?_, ?_⟩
    · rw [List.range_succ, commitGo_append, hok]
      simp [commitGo, hne, hnotin]
    · intro s
      simp only [List.mem_cons]
      constructor
      · rintro (rfl | hs)
        · exact ⟨i, by omega, rfl⟩
        · obtain ⟨j, hj, hje⟩ := (hmem s).mp hs
          exact ⟨j, by omega, hje⟩
      · rintro ⟨j, hj, rfl⟩
        by_cases hji : j = i
        · subst hji; exact Or.inl rfl
        · exact Or.inr ((hmem _).mpr ⟨j, by omega, rfl⟩)

lemma range_split (i n : ℕ) (h : i < n) :
    ∃ rest, List.range n = List.range i ++ i :: rest := by
  induction n with
  | zero => omega
  | succ n ih =>
    by_cases hin : i < n
    · obtain ⟨rest, hrest⟩ := ih hin
      exact ⟨rest ++ [n], by rw [List.range_succ, hrest]; simp⟩
    · have : i = n := by omega
      subst this
      exact ⟨[], by rw [List.range_succ]⟩

/-! ## C7: whitespace casts to null -/

/-- C7: for every field type and name, casting a whitespace-only string or
an absent (`None`) value yields `null`, never an error. -/
theorem c7_whitespace_null (name : String) (ft : FType) (s : String)
    (h : pyStrip s = "") :
    castValue name ft (Raw.str s) = .ok .null ∧
    castValue name ft Raw.none = .ok .null := by
  constructor
  · have hn : normRaw (Raw.str s) = Raw.none := by
      simp [normRaw, h]
    unfold castValue
    rw [hn]
    rfl
  · rfl

theorem c7_whitespace_null_witness :
    castValue "x" .number (Raw.str "   ") = .ok .null ∧
    castValue "x" .number Raw.none = .ok .null :=
  c7_whitespace_null "x" .number "   " (by decide)

/-! ## C10: NaN is not normalized to null -/

/-- C10: the absent-value normalization covers only `None` and whitespace
strings.  Float `NaN` — exactly what pandas yields for an empty CSV cell —
is not normalized: a short/long text field casts it to the string `"nan"`
and a number field casts it to float `NaN`, all reported as success. -/
theorem c10_nan_casts :
    inferColumn [""] = [Raw.num .nan] ∧
    castValue "x" .shortText (Raw.num .nan) = .ok (.str "nan") ∧
    castValue "x" .longText (Raw.num .nan) = .ok (.str "nan") ∧
    castValue "x" .number (Raw.num .nan) = .ok (.num .nan) := by
  refine ⟨by decide, rfl, rfl, rfl⟩

/-! ## C5: commit scans in order and fails fast, leaving state untouched -/

/-- C5: committing a draft scans fields in order and fails fast at the first
violation: if names before position `i` are all nonempty and pairwise
distinct, then a name trimming to empty at `i` gives the error
`Variable name #⟨i+1⟩ is empty.` (positions are reported 1-based), and a
nonempty name at `i` equal to an earlier one gives
`Duplicate variable name: '⟨name⟩'.`; in either case the previously
committed schema and all rows are left unchanged. -/
theorem c5_commit_fail_fast (st : SessionState) (n : ℕ)
    (draft : List (String × FType)) (i : ℕ) (hi : i < n)
    (hpre : ∀ j, j < i → trimmedName draft j ≠ "")
    (hinj : ∀ j, j < i → ∀ k, k < i →
      trimmedName draft j = trimmedName draft k → j = k) :
    (trimmedName draft i = "" →
      commitSchema n draft =
        .error ("Variable name #" ++ toString (i + 1) ++ " is empty.") ∧
      saveSchema st n draft = st) ∧
    (trimmedName draft i ≠ "" →
      (∃ j, j < i ∧ trimmedName draft j = trimmedName draft i) →
      commitSchema n draft =
        .error ("Duplicate variable name: '" ++ trimmedName draft i ++ "'.") ∧
      saveSchema st n draft = st) := by
  obtain ⟨seen, acc, hok, hmem⟩ := commitGo_range_ok draft i hpre hinj
  obtain ⟨rest, hrest⟩ := range_split i n hi
  constructor
  · intro hempty
    have hc : commitSchema n draft =
        .error ("Variable name #" ++ toString (i + 1) ++ " is empty.") := by
      unfold commitSchema
      rw [hrest, commitGo_append, hok]
      simp [commitGo, hempty, Except.map]
    exact ⟨hc, by unfold saveSchema; rw [hc]⟩
  · intro hne hdup
    have hin : trimmedName draft i ∈ seen := by
      obtain ⟨j, hj, hje⟩ := hdup
      exact (hmem _).mpr ⟨j, hj, hje⟩
    have hc : commitSchema n draft =
        .error ("Duplicate variable name: '" ++ trimmedName draft i ++ "'.") := by
      unfold commitSchema
      rw [hrest, commitGo_append, hok]
      simp [commitGo, hne, hin, Except.map]
    exact ⟨hc, by unfold saveSchema; rw [hc]⟩

theorem c5_commit_fail_fast_witness :
    (commitSchema 2 [("a", .shortText), ("   ", .number)] =
        .error "Variable name #2 is empty." ∧
      saveSchema ⟨[⟨"a", .shortText⟩], [[("a", Value.str "v")]]⟩ 2
        [("a", .shortText), ("   ", .number)] =
        ⟨[⟨"a", .shortText⟩], [[("a", Value.str "v")]]⟩) ∧
    (commitSchema 2 [("b", .shortText), (" b ", .number)] =
        .error "Duplicate variable name: 'b'." ∧
      saveSchema ⟨[⟨"a", .shortText⟩], [[("a", Value.str "v")]]⟩ 2
        [("b", .shortText), (" b ", .number)] =
        ⟨[⟨"a", .shortText⟩], [[("a", Value.str "v")]]⟩) := by
  constructor
  · exact (c5_commit_fail_fast ⟨[⟨"a", .shortText⟩], [[("a", Value.str "v")]]⟩ 2
      [("a", .shortText), ("   ", .number)] 1 (by omega)
      (by decide) (by decide)).1 (by decide)
  · exact (c5_commit_fail_fast ⟨[⟨"a", .shortText⟩], [[("a", Value.str "v")]]⟩ 2
      [("b", .shortText), (" b ", .number)] 1 (by omega)
      (by decide) (by decide)).2 (by decide) ⟨0, by omega, by decide⟩

/-! ## C6: a successful commit replaces the schema and clears all rows -/

/-- C6: every successful schema commit installs the committed schema and
empties the DataStore, whatever the previous schema and rows were — in
particular also when the new schema is identical to the old one. -/
theorem c6_commit_clears_rows (st : SessionState) (n : ℕ)
    (draft : List (String × FType)) (s : List Field)
    (h : commitSchema n draft = .ok s) :
    saveSchema st n draft = ⟨s, []⟩ := by
  unfold saveSchema
  rw [h]

theorem c6_commit_clears_rows_witness :
    saveSchema ⟨[⟨"a", .shortText⟩], [[("a", Value.str "v")]]⟩ 1
      [("a", .shortText)] = ⟨[⟨"a", .shortText⟩], []⟩ :=
  c6_commit_clears_rows ⟨[⟨"a", .shortText⟩], [[("a", Value.str "v")]]⟩ 1
    [("a", .shortText)] [⟨"a", .shortText⟩] rfl

/-! ## C4: row validation fails fast on the first bad field -/

lemma vcLoop_error_of_first (rowd : RawRow) (pre post : List Field) (f : Field)
    (e : String) (out : Row)
    (hpre : ∀ g ∈ pre, ∃ v, castValue g.name g.ftype (dictGetRaw rowd g.name) = .ok v)
    (hf : castValue f.name f.ftype (dictGetRaw rowd f.name) = .error e) :
    vcLoop rowd (pre ++ f :: post) out = .error e := by
  induction pre generalizing out with
  | nil => simp [vcLoop, hf]
  | cons g pre ih =>
    obtain ⟨v, hv⟩ := hpre g (by simp)
    simp only [List.cons_append, vcLoop, hv]
    exact ih _ fun g hg => hpre g (by simp [hg])

/-- C4: if every field before `f` casts successfully and `f`'s value fails to
cast with error `e`, the whole row is rejected with exactly `e` — whatever
the fields after `f` are (they are not examined) — and `submitRow` leaves
the store unchanged. -/
theorem c4_first_failing_field (st : SessionState) (pre post : List Field)
    (f : Field) (rowd : RawRow) (e : String)
    (hschema : st.schema = pre ++ f :: post)
    (hpre : ∀ g ∈ pre, ∃ v, castValue g.name g.ftype (dictGetRaw rowd g.name) = .ok v)
    (hf : castValue f.name f.ftype (dictGetRaw rowd f.name) = .error e) :
    validate_and_cast st.schema rowd = .error e ∧
    (∀ post2 : List Field, validate_and_cast (pre ++ f :: post2) rowd = .error e) ∧
    submitRow st rowd = st := by
  have h1 : ∀ post2 : List Field, validate_and_cast (pre ++ f :: post2) rowd = .error e :=
    fun post2 => vcLoop_error_of_first rowd pre post2 f e [] hpre hf
  have h2 : validate_and_cast st.schema rowd = .error e := by rw [hschema]; exact h1 post
  refine ⟨h2, h1, ?_⟩
  unfold submitRow
  rw [h2]

theorem c4_first_failing_field_witness :
    validate_and_cast [⟨"age", .number⟩, ⟨"joined", .date⟩]
        [("age", .str "thirty"), ("joined", .str "2023-01-05")] =
      .error "Error casting field 'age' to number: could not convert string to float: 'thirty'" ∧
    (∀ post2 : List Field, validate_and_cast ([] ++ ⟨"age", .number⟩ :: post2)
        [("age", .str "thirty"), ("joined", .str "2023-01-05")] =
      .error "Error casting field 'age' to number: could not convert string to float: 'thirty'") ∧
    submitRow ⟨[⟨"age", .number⟩, ⟨"joined", .date⟩], []⟩
        [("age", .str "thirty"), ("joined", .str "2023-01-05")] =
      ⟨[⟨"age", .number⟩, ⟨"joined", .date⟩], []⟩ :=
  c4_first_failing_field ⟨[⟨"age", .number⟩, ⟨"joined", .date⟩], []⟩ []
    [⟨"joined", .date⟩] ⟨"age", .number⟩
    [("age", .str "thirty"), ("joined", .str "2023-01-05")] _
    rfl (by simp) (by decide)

/-! ## C8: rows carry exactly the schema's keys -/

lemma dictInsert_fresh (r : Row) (k : String) (v : Value)
    (h : k ∉ r.map Prod.fst) : dictInsert r k v = r ++ [(k, v)] := by
  induction r with
  | nil => rfl
  | cons p t ih =>
    simp only [List.map_cons, List.mem_cons] at h
    push_neg at h
    simp [dictInsert, Ne.symm h.1, ih h.2]

lemma lookup_append_left (l1 l2 : Row) (k : String)
    (h : k ∈ l1.map Prod.fst) : (l1 ++ l2).lookup k = l1.lookup k := by
  induction l1 with
  | nil => simp at h
  | cons p t ih =>
    rcases p with ⟨k2, v2⟩
    by_cases hk : k = k2
    · simp [List.lookup, hk]
    · simp only [List.map_cons, List.mem_cons] at h
      rcases h with h | h
      · exact absurd h hk
      · simp [List.lookup, hk, ih h]

lemma lookup_append_right (l1 l2 : Row) (k : String)
    (h : k ∉ l1.map Prod.fst) : (l1 ++ l2).lookup k = l2.lookup k := by
  induction l1 with
  | nil => rfl
  | cons p t ih =>
    rcases p with ⟨k2, v2⟩
    simp only [List.map_cons, List.mem_cons] at h
    push_neg at h
    have hb : (k == k2) = false := by simp [h.1]
    simp [List.lookup, hb, ih h.2]

lemma vcLoop_ok_spec (rowd : RawRow) (schema : List Field) (out r : Row)
    (hnd : (schema.map Field.name).Nodup)
    (hfresh : ∀ f ∈ schema, f.name ∉ out.map Prod.fst)
    (h : vcLoop rowd schema out = .ok r) :
    r.map Prod.fst = out.map Prod.fst ++ schema.map Field.name ∧
    (∀ k, k ∈ out.map Prod.fst → r.lookup k = out.lookup k) ∧
    (∀ f ∈ schema, ∃ v, castValue f.name f.ftype (dictGetRaw rowd f.name) = .ok v ∧
      r.lookup f.name = some v) := by
  induction schema generalizing out with
  | nil =>
    simp only [vcLoop, Except.ok.injEq] at h
    subst h
    simp
  | cons f rest ih =>
    cases hc : castValue f.name f.ftype (dictGetRaw rowd f.name) with
    | error e => simp [vcLoop, hc] at h
    | ok v =>
      simp only [vcLoop, hc] at h
      have hfne : f.name ∉ out.map Prod.fst := hfresh f (by simp)
      rw [dictInsert_fresh out f.name v hfne] at h
      have hnd2 : (rest.map Field.name).Nodup := by
        simpa using List.Nodup.of_cons hnd
      have hfnotrest : f.name ∉ rest.map Field.name := by
        have := hnd
        simp only [List.map_cons, List.nodup_cons] at this
        exact this.1
      have hfresh2 : ∀ g ∈ rest, g.name ∉ (out ++ [(f.name, v)]).map Prod.fst := by
        intro g hg
        simp only [List.map_append, List.mem_append, List.map_cons, List.map_nil,
          List.mem_singleton, List.mem_cons]
        rintro (hmem | hmem)
        · exact hfresh g (by simp [hg]) hmem
        · simp only [List.not_mem_nil, or_false] at hmem
          exact hfnotrest (hmem ▸ List.mem_map_of_mem Field.name hg)
      obtain ⟨hkeys, hpres, hlook⟩ := ih (out ++ [(f.name, v)]) hnd2 hfresh2 h
      refine ⟨?_, ?_, ?_⟩
      · rw [hkeys]; simp
      · intro k hk
        rw [hpres k (by simp [hk])]
        exact lookup_append_left out [(f.name, v)] k hk
      · intro g hg
        rcases List.mem_cons.mp hg with rfl | hg2
        · refine ⟨v, hc, ?_⟩
          rw [hpres g.name (by simp)]
          rw [lookup_append_right out [(g.name, v)] g.name hfne]
          simp [List.lookup]
        · exact hlook g hg2

/-- C8: every row accepted by `validate_and_cast` has as its keys exactly
the schema's field names, in schema order — no keys from the raw input
survive and none are omitted — and a field absent from the raw row is bound
to `null`. -/
theorem c8_row_keys_are_schema (schema : List Field) (rowd : RawRow) (r : Row)
    (hnd : (schema.map Field.name).Nodup)
    (h : validate_and_cast schema rowd = .ok r) :
    r.map Prod.fst = schema.map Field.name ∧
    (∀ f ∈ schema, rowd.lookup f.name = Option.none →
      r.lookup f.name = some .null) := by
  obtain ⟨hkeys, _, hlook⟩ := vcLoop_ok_spec rowd schema [] r hnd (by simp) h
  refine ⟨by simpa using hkeys, ?_⟩
  intro f hf hmiss
  obtain ⟨v, hv, hl⟩ := hlook f hf
  have hraw : dictGetRaw rowd f.name = Raw.none := by
    unfold dictGetRaw
    rw [hmiss]
  rw [hraw] at hv
  have : castValue f.name f.ftype Raw.none = .ok .null := rfl
  rw [this] at hv
  cases hv
  exact hl

theorem c8_row_keys_are_schema_witness :
    ∃ r, validate_and_cast [⟨"a", .number⟩, ⟨"b", .shortText⟩]
        [("junk", Raw.str "zzz"), ("a", Raw.str "1")] = .ok r ∧
      r.map Prod.fst = ["a", "b"] ∧ r.lookup "b" = some .null := by
  refine ⟨[("a", .num (.fin 1 0)), ("b", .null)], by decide, ?_, by decide⟩
  have := c8_row_keys_are_schema [⟨"a", .number⟩, ⟨"b", .shortText⟩]
    [("junk", Raw.str "zzz"), ("a", Raw.str "1")]
    [("a", .num (.fin 1 0)), ("b", .null)] (by decide) (by decide)
  exact this.1

/-! ## C9: failures are returned as values, never raised -/

lemma exceptNum_shape (name : String) (r : Except String PFloat) (e : String)
    (h : (match r with
          | .ok f => (Except.ok (Value.num f) : Except String Value)
          | .error e0 => .error (castErrMsg name .number e0)) = .error e) :
    ∃ e0, e = castErrMsg name .number e0 := by
  cases r with
  | ok f => exact absurd h (by simp)
  | error e0 => exact ⟨e0, by injection h with h2; exact h2.symm⟩

lemma exceptDate_shape (name : String) (r : Except String PyDate) (e : String)
    (h : (match r with
          | .ok d => (Except.ok (Value.date d) : Except String Value)
          | .error e0 => .error (castErrMsg name .date e0)) = .error e) :
    ∃ e0, e = castErrMsg name .date e0 := by
  cases r with
  | ok d => exact absurd h (by simp)
  | error e0 => exact ⟨e0, by injection h with h2; exact h2.symm⟩

lemma castCore_error_shape (name : String) (ft : FType) (val : Raw) (e : String)
    (h : castCore name ft val = .error e) :
    ∃ e0, e = castErrMsg name ft e0 := by
  unfold castCore at h
  split at h
  · exact absurd h (by simp)
  · cases ft with
    | number => exact exceptNum_shape name (pyFloatRaw val) e h
    | date =>
      cases val with
      | date d => simp at h
      | none => exact exceptDate_shape name (pdToDatetimeDateRaw Raw.none) e h
      | str s => exact exceptDate_shape name (pdToDatetimeDateRaw (Raw.str s)) e h
      | int n => exact exceptDate_shape name (pdToDatetimeDateRaw (Raw.int n)) e h
      | num f => exact exceptDate_shape name (pdToDatetimeDateRaw (Raw.num f)) e h
      | bool b => exact exceptDate_shape name (pdToDatetimeDateRaw (Raw.bool b)) e h
    | shortText => simp at h
    | longText => simp at h

lemma castValue_error_shape (name : String) (ft : FType) (raw : Raw) (e : String)
    (h : castValue name ft raw = .error e) :
    ∃ e0, e = castErrMsg name ft e0 :=
  castCore_error_shape name ft (normRaw raw) e h

lemma vcLoop_total (rowd : RawRow) (schema : List Field) (out : Row) :
    (∃ r, vcLoop rowd schema out = .ok r) ∨
    (∃ f e, f ∈ schema ∧
      vcLoop rowd schema out = .error (castErrMsg f.name f.ftype e)) := by
  induction schema generalizing out with
  | nil => exact Or.inl ⟨out, rfl⟩
  | cons f rest ih =>
    cases hc : castValue f.name f.ftype (dictGetRaw rowd f.name) with
    | ok v =>
      rcases ih (dictInsert out f.name v) with ⟨r, hr⟩ | ⟨g, e, hg, he⟩
      · exact Or.inl ⟨r, by simp [vcLoop, hc, hr]⟩
      · exact Or.inr ⟨g, e, by simp [hg], by simp [vcLoop, hc, he]⟩
    | error e =>
      obtain ⟨e0, rfl⟩ := castValue_error_shape _ _ _ _ hc
      exact Or.inr ⟨f, e0, by simp, by simp [vcLoop, hc]⟩

/-- C9: casting failures never escape to the caller: `validate_and_cast`
always returns a value — success, or the formatted cast-error message of one
of the schema's fields — and a failure of the CSV read step is caught and
reported as `Error reading CSV: ...` with the session state untouched. -/
theorem c9_errors_are_values :
    (∀ (schema : List Field) (rowd : RawRow),
      (∃ r, validate_and_cast schema rowd = .ok r) ∨
      (∃ f e, f ∈ schema ∧
        validate_and_cast schema rowd = .error (castErrMsg f.name f.ftype e))) ∧
    (∀ (st : SessionState) (file : List (List String)) (e : String),
      readCsvE file = .error e →
      uploadCsv st file = (st, .readError ("Error reading CSV: " ++ e))) := by
  constructor
  · intro schema rowd
    exact vcLoop_total rowd schema []
  · intro st file e h
    unfold uploadCsv
    rw [h]

theorem c9_errors_are_values_witness :
    uploadCsv ⟨[⟨"a", .shortText⟩], []⟩ [] =
      (⟨[⟨"a", .shortText⟩], []⟩,
        .readError ("Error reading CSV: " ++ "No columns to parse from file")) :=
  c9_errors_are_values.2 ⟨[⟨"a", .shortText⟩], []⟩ []
    "No columns to parse from file" rfl

/-! ## C2 and C3: the import batch semantics -/

/-- The rows of a batch that validate, in file order (spec §4.5). -/
def acceptedRows (schema : List Field) (dicts : List RawRow) : List Row :=
  dicts.filterMap fun r => (validate_and_cast schema r).toOption

/-- The per-row failure messages of a batch, in file order (spec §4.5). -/
def rejectedMsgs (schema : List Field) (dicts : List RawRow) : List String :=
  dicts.filterMap fun r =>
    match validate_and_cast schema r with
    | .ok _ => Option.none
    | .error e => some e

lemma importLoop_spec (schema : List Field) (dicts : List RawRow)
    (rows : List Row) (bad : List String) (added : ℕ) :
    importLoop schema dicts rows bad added =
      (rows ++ acceptedRows schema dicts, bad ++ rejectedMsgs schema dicts,
        added + (acceptedRows schema dicts).length) := by
  induction dicts generalizing rows bad added with
  | nil => simp [importLoop, acceptedRows, rejectedMsgs]
  | cons r rest ih =>
    cases hv : validate_and_cast schema r with
    | ok res =>
      simp [importLoop, hv, ih, acceptedRows, rejectedMsgs, Except.toOption]
      omega
    | error e =>
      simp [importLoop, hv, ih, acceptedRows, rejectedMsgs, Except.toOption]

lemma accepted_rejected_length (schema : List Field) (dicts : List RawRow) :
    (acceptedRows schema dicts).length + (rejectedMsgs schema dicts).length =
      dicts.length := by
  induction dicts with
  | nil => rfl
  | cons r rest ih =>
    cases hv : validate_and_cast schema r <;>
      simp [acceptedRows, rejectedMsgs, hv, Except.toOption] at ih ⊢ <;> omega

/-- C2: when the header contains every schema field name, a per-row failure
does not stop the import: every data row of the projected frame is
attempted, each validating row is appended to the store in file order,
failing rows are skipped, and the report carries the count of added rows
together with only the first five failure messages. -/
theorem c2_partial_import (st : SessionState) (df : Df)
    (hheader : ∀ c ∈ st.schema.map Field.name, c ∈ dfColNames df) :
    importDf st df =
      (⟨st.schema, st.rows ++ acceptedRows st.schema
          (rowDicts (dfProject df (st.schema.map Field.name)))⟩,
        .report (acceptedRows st.schema
            (rowDicts (dfProject df (st.schema.map Field.name)))).length
          ((rejectedMsgs st.schema
            (rowDicts (dfProject df (st.schema.map Field.name)))).take 5)) ∧
    (acceptedRows st.schema (rowDicts (dfProject df (st.schema.map Field.name)))).length
      + (rejectedMsgs st.schema (rowDicts (dfProject df (st.schema.map Field.name)))).length
      = (rowDicts (dfProject df (st.schema.map Field.name))).length := by
  have hmiss : (st.schema.map Field.name).filter
      (fun c => decide (c ∉ dfColNames df)) = [] := by
    rw [List.filter_eq_nil_iff]
    intro c hc
    simp [hheader c hc]
  refine ⟨?_, accepted_rejected_length _ _⟩
  simp only [importDf]
  rw [hmiss]
  simp [importLoop_spec]

theorem c2_partial_import_witness :
    importDf ⟨[⟨"a", .shortText⟩, ⟨"b", .number⟩], []⟩
        [("a", [Raw.str "x1", .str "x2", .str "x3", .str "x4", .str "x5", .str "x6", .str "x7"]),
         ("b", [Raw.str "p", .str "q", .str "r", .str "s", .str "t", .str "u", .num (.fin 1 0)])] =
      (⟨[⟨"a", .shortText⟩, ⟨"b", .number⟩],
          [] ++ acceptedRows [⟨"a", .shortText⟩, ⟨"b", .number⟩]
            (rowDicts (dfProject
              [("a", [Raw.str "x1", .str "x2", .str "x3", .str "x4", .str "x5", .str "x6", .str "x7"]),
               ("b", [Raw.str "p", .str "q", .str "r", .str "s", .str "t", .str "u", .num (.fin 1 0)])]
              (([⟨"a", .shortText⟩, ⟨"b", .number⟩] : List Field).map Field.name)))⟩,
        .report (acceptedRows [⟨"a", .shortText⟩, ⟨"b", .number⟩]
            (rowDicts (dfProject
              [("a", [Raw.str "x1", .str "x2", .str "x3", .str "x4", .str "x5", .str "x6", .str "x7"]),
               ("b", [Raw.str "p", .str "q", .str "r", .str "s", .str "t", .str "u", .num (.fin 1 0)])]
              (([⟨"a", .shortText⟩, ⟨"b", .number⟩] : List Field).map Field.name)))).length
          ((rejectedMsgs [⟨"a", .shortText⟩, ⟨"b", .number⟩]
            (rowDicts (dfProject
              [("a", [Raw.str "x1", .str "x2", .str "x3", .str "x4", .str "x5", .str "x6", .str "x7"]),
               ("b", [Raw.str "p", .str "q", .str "r", .str "s", .str "t", .str "u", .num (.fin 1 0)])]
              (([⟨"a", .shortText⟩, ⟨"b", .number⟩] : List Field).map Field.name)))).take 5)) ∧
    (acceptedRows [⟨"a", .shortText⟩, ⟨"b", .number⟩]
        (rowDicts (dfProject
          [("a", [Raw.str "x1", .str "x2", .str "x3", .str "x4", .str "x5", .str "x6", .str "x7"]),
           ("b", [Raw.str "p", .str "q", .str "r", .str "s", .str "t", .str "u", .num (.fin 1 0)])]
          (([⟨"a", .shortText⟩, ⟨"b", .number⟩] : List Field).map Field.name)))).length
      + (rejectedMsgs [⟨"a", .shortText⟩, ⟨"b", .number⟩]
        (rowDicts (dfProject
          [("a", [Raw.str "x1", .str "x2", .str "x3", .str "x4", .str "x5", .str "x6", .str "x7"]),
           ("b", [Raw.str "p", .str "q", .str "r", .str "s", .str "t", .str "u", .num (.fin 1 0)])]
          (([⟨"a", .shortText⟩, ⟨"b", .number⟩] : List Field).map Field.name)))).length
      = (rowDicts (dfProject
          [("a", [Raw.str "x1", .str "x2", .str "x3", .str "x4", .str "x5", .str "x6", .str "x7"]),
           ("b", [Raw.str "p", .str "q", .str "r", .str "s", .str "t", .str "u", .num (.fin 1 0)])]
          (([⟨"a", .shortText⟩, ⟨"b", .number⟩] : List Field).map Field.name))).length :=
  c2_partial_import ⟨[⟨"a", .shortText⟩, ⟨"b", .number⟩], []⟩
    [("a", [Raw.str "x1", .str "x2", .str "x3", .str "x4", .str "x5", .str "x6", .str "x7"]),
     ("b", [Raw.str "p", .str "q", .str "r", .str "s", .str "t", .str "u", .num (.fin 1 0)])]
    (by decide)

/-- C3: a header lacking at least one schema field name aborts the import
with an error naming exactly the missing columns and appends nothing to the
DataStore; conversely, when no schema column is missing the import never
aborts, however many extra header columns are present. -/
theorem c3_missing_columns (st : SessionState) (df : Df) :
    ((st.schema.map Field.name).filter (fun c => decide (c ∉ dfColNames df)) ≠ [] →
      importDf st df = (st, .formatError ("Missing columns in uploaded CSV: " ++
        pyStrListRepr ((st.schema.map Field.name).filter fun c =>
          decide (c ∉ dfColNames df))))) ∧
    ((st.schema.map Field.name).filter (fun c => decide (c ∉ dfColNames df)) = [] →
      ∃ rows2 added shown,
        importDf st df = (⟨st.schema, rows2⟩, .report added shown)) := by
  constructor
  · intro h
    simp only [importDf]
    rw [if_pos h]
  · intro h
    simp only [importDf]
    rw [h, if_neg (by simp)]
    exact ⟨_, _, _, rfl⟩

theorem c3_missing_columns_witness :
    (importDf ⟨[⟨"a", .shortText⟩, ⟨"z", .number⟩], []⟩
        [("a", [Raw.str "x1"]), ("b", [Raw.str "p"])] =
      (⟨[⟨"a", .shortText⟩, ⟨"z", .number⟩], []⟩,
        .formatError "Missing columns in uploaded CSV: ['z']")) ∧
    (∃ rows2 added shown,
      importDf ⟨[⟨"a", .shortText⟩], []⟩
          [("a", [Raw.str "x1"]), ("b", [Raw.str "p"])] =
        (⟨[⟨"a", .shortText⟩], rows2⟩, .report added shown)) := by
  constructor
  · have := (c3_missing_columns ⟨[⟨"a", .shortText⟩, ⟨"z", .number⟩], []⟩
      [("a", [Raw.str "x1"]), ("b", [Raw.str "p"])]).1 (by decide)
    simpa using this
  · exact (c3_missing_columns ⟨[⟨"a", .shortText⟩], []⟩
      [("a", [Raw.str "x1"]), ("b", [Raw.str "p"])]).2 (by decide)

/-! ## C1: the CSV round trip

First a toolkit characterising the decimal printer against the float/date
parsers, then the counterexample (a `null` comes back as `"nan"`), then the
amended round-trip theorem. -/

lemma digitChar_isDigit {d : ℕ} (h : d < 10) : (digitChar d).isDigit = true := by
  interval_cases d <;> decide

lemma charDigit_digitChar {d : ℕ} (h : d < 10) : charDigit (digitChar d) = d := by
  interval_cases d <;> decide

lemma digitChar_not_ws {d : ℕ} (h : d < 10) : (digitChar d).isWhitespace = false := by
  interval_cases d <;> decide

lemma digit_not_ws {c : Char} (h : c.isDigit = true) : c.isWhitespace = false := by
  cases hw : c.isWhitespace with
  | false => rfl
  | true =>
    exfalso
    simp only [Char.isWhitespace, Bool.or_eq_true, decide_eq_true_eq] at hw
    rcases hw with ((rfl | rfl) | rfl) | rfl <;> exact absurd h (by decide)

lemma natDigitsFuel_lt (fuel n : ℕ) : ∀ d ∈ natDigitsFuel fuel n, d < 10 := by
  induction fuel generalizing n with
  | zero => intro d hd; simp [natDigitsFuel] at hd
  | succ fuel ih =>
    intro d hd
    by_cases hn : n = 0
    · simp [natDigitsFuel, hn] at hd
    · simp only [natDigitsFuel, if_neg hn, List.mem_cons] at hd
      rcases hd with rfl | hd
      · omega
      · exact ih _ d hd

lemma digitsToNat_append (a b : List Char) :
    digitsToNat (a ++ b) = b.foldl (fun x c => 10 * x + charDigit c) (digitsToNat a) := by
  simp [digitsToNat, List.foldl_append]

lemma digitsToNat_revmap (L : List ℕ) (h : ∀ d ∈ L, d < 10) :
    digitsToNat (L.reverse.map digitChar) =
      L.foldr (fun d acc => d + 10 * acc) 0 := by
  induction L with
  | nil => rfl
  | cons d L ih =>
    have hd : d < 10 := h d (by simp)
    simp only [List.reverse_cons, List.map_append, List.map_cons, List.map_nil,
      List.foldr_cons]
    rw [digitsToNat_append]
    simp only [List.foldl_cons, List.foldl_nil]
    rw [ih fun x hx => h x (by simp [hx]), charDigit_digitChar hd]
    ring

lemma natDigitsFuel_foldr (fuel n : ℕ) (h : n ≤ fuel) :
    (natDigitsFuel fuel n).foldr (fun d acc => d + 10 * acc) 0 = n := by
  induction fuel generalizing n with
  | zero => simp [natDigitsFuel]; omega
  | succ fuel ih =>
    by_cases hn : n = 0
    · simp [natDigitsFuel, hn]
    · simp only [natDigitsFuel, if_neg hn, List.foldr_cons]
      have hdiv : n / 10 ≤ fuel := by
        have := Nat.div_lt_self (Nat.pos_of_ne_zero hn) (by norm_num : 1 < 10)
        omega
      rw [ih (n / 10) hdiv]
      omega

lemma digitsToNat_printNat (n : ℕ) : digitsToNat (printNatChars n) = n := by
  by_cases hn : n = 0
  · subst hn; decide
  · unfold printNatChars
    rw [if_neg hn, digitsToNat_revmap _ (natDigitsFuel_lt n n),
      natDigitsFuel_foldr n n le_rfl]

lemma printNat_all_digit (n : ℕ) : ∀ c ∈ printNatChars n, c.isDigit = true := by
  intro c hc
  unfold printNatChars at hc
  by_cases hn : n = 0
  · rw [if_pos hn] at hc
    simp at hc
    subst hc
    decide
  · rw [if_neg hn] at hc
    simp only [List.mem_map, List.mem_reverse] at hc
    obtain ⟨d, hd, rfl⟩ := hc
    exact digitChar_isDigit (natDigitsFuel_lt n n d hd)

lemma printNat_ne_nil (n : ℕ) : printNatChars n ≠ [] := by
  unfold printNatChars
  by_cases hn : n = 0
  · simp [hn]
  · rw [if_neg hn]
    have : natDigitsFuel n n ≠ [] := by
      cases n with
      | zero => exact absurd rfl hn
      | succ k => simp [natDigitsFuel, hn]
    simpa using this

lemma natPow10_pos (k : ℕ) : 0 < natPow10 k := by
  induction k with
  | zero => decide
  | succ k ih => simp only [natPow10]; omega

lemma natDigitsFuel_length (fuel n k : ℕ) (hf : n ≤ fuel) (h : n < natPow10 k) :
    (natDigitsFuel fuel n).length ≤ k := by
  induction fuel generalizing n k with
  | zero => simp [natDigitsFuel]
  | succ fuel ih =>
    by_cases hn : n = 0
    · simp [natDigitsFuel, hn]
    · cases k with
      | zero => simp [natPow10] at h; omega
      | succ k =>
        simp only [natDigitsFuel, if_neg hn, List.length_cons]
        have hdiv : n / 10 ≤ fuel := by
          have := Nat.div_lt_self (Nat.pos_of_ne_zero hn) (by norm_num : 1 < 10)
          omega
        have hlt : n / 10 < natPow10 k := by
          rw [Nat.div_lt_iff_lt_mul (by norm_num : 0 < 10)]
          simp only [natPow10] at h
          omega
        have := ih (n / 10) k hdiv hlt
        omega

lemma printNat_length_le (n k : ℕ) (hk : 1 ≤ k) (h : n < natPow10 k) :
    (printNatChars n).length ≤ k := by
  unfold printNatChars
  by_cases hn : n = 0
  · simp [hn]; omega
  · rw [if_neg hn]
    simpa using natDigitsFuel_length n n k le_rfl h

lemma digitsToNat_zeros (z : ℕ) (l : List Char) :
    digitsToNat (List.replicate z '0' ++ l) = digitsToNat l := by
  induction z with
  | zero => rfl
  | succ z ih =>
    simp only [List.replicate_succ, List.cons_append]
    show digitsToNat (List.replicate z '0' ++ l) = _
    exact ih

lemma digitsToNat_pad (w n : ℕ) : digitsToNat (padNatChars w n) = n := by
  unfold padNatChars
  rw [digitsToNat_zeros, digitsToNat_printNat]

lemma pad_all_digit (w n : ℕ) : ∀ c ∈ padNatChars w n, c.isDigit = true := by
  intro c hc
  unfold padNatChars at hc
  rcases List.mem_append.mp hc with hc | hc
  · rw [List.eq_of_mem_replicate hc]
    decide
  · exact printNat_all_digit n c hc

lemma pad_length (w n : ℕ) (hw : 1 ≤ w) (h : n < natPow10 w) :
    (padNatChars w n).length = w := by
  unfold padNatChars
  have := printNat_length_le n w hw h
  simp only [List.length_append, List.length_replicate]
  omega

lemma pad_ne_nil (w n : ℕ) : padNatChars w n ≠ [] := by
  unfold padNatChars
  have := printNat_ne_nil n
  intro h
  rcases List.append_eq_nil.mp h with ⟨_, h2⟩
  exact this h2

/-! Splitting digit runs off concatenations. -/

lemma takeWhile_append_of_all {p : Char → Bool} (a b : List Char)
    (h : ∀ c ∈ a, p c = true) : (a ++ b).takeWhile p = a ++ b.takeWhile p := by
  induction a with
  | nil => rfl
  | cons c a ih =>
    have hc := h c (by simp)
    simp [List.takeWhile_cons, hc, ih fun x hx => h x (by simp [hx])]

lemma dropWhile_append_of_all {p : Char → Bool} (a b : List Char)
    (h : ∀ c ∈ a, p c = true) : (a ++ b).dropWhile p = b.dropWhile p := by
  induction a with
  | nil => rfl
  | cons c a ih =>
    have hc := h c (by simp)
    simp [List.dropWhile_cons, hc, ih fun x hx => h x (by simp [hx])]

lemma takeWhile_cons_neg {p : Char → Bool} (c : Char) (l : List Char)
    (h : p c = false) : (c :: l).takeWhile p = [] := by
  simp [List.takeWhile_cons, h]

lemma dropWhile_cons_neg {p : Char → Bool} (c : Char) (l : List Char)
    (h : p c = false) : (c :: l).dropWhile p = c :: l := by
  simp [List.dropWhile_cons, h]

lemma dropWhile_eq_self_of_none {p : Char → Bool} (l : List Char)
    (h : ∀ c ∈ l, p c = false) : l.dropWhile p = l := by
  cases l with
  | nil => rfl
  | cons c t => exact dropWhile_cons_neg c t (h c (by simp))

lemma stripWs_eq_self (l : List Char) (h : ∀ c ∈ l, c.isWhitespace = false) :
    stripWs l = l := by
  unfold stripWs
  rw [dropWhile_eq_self_of_none l h,
    dropWhile_eq_self_of_none l.reverse (fun c hc => h c (List.mem_reverse.mp hc)),
    List.reverse_reverse]

/-! Character classes of the rendered cells. -/

def isPlainChar (c : Char) : Bool := c.isDigit || c == '-' || c == '.'

lemma plain_not_ws {c : Char} (h : isPlainChar c = true) : c.isWhitespace = false := by
  simp only [isPlainChar, Bool.or_eq_true, beq_iff_eq] at h
  rcases h with (h | rfl) | rfl
  · exact digit_not_ws h
  · decide
  · decide

lemma reprFin_plain (m : ℤ) (k : ℕ) : ∀ c ∈ reprFin m k, isPlainChar c = true := by
  intro c hc
  unfold reprFin at hc
  simp only [List.mem_append, List.mem_cons] at hc
  rcases hc with (hc | hc) | rfl | hc
  · split at hc
    · simp at hc
      subst hc
      decide
    · simp at hc
  · simp [isPlainChar, printNat_all_digit _ c hc]
  · decide
  · split at hc
    · simp at hc
      subst hc
      decide
    · simp [isPlainChar, pad_all_digit _ _ c hc]

lemma iso_plain (d : PyDate) : ∀ c ∈ isoDateChars d, isPlainChar c = true := by
  intro c hc
  unfold isoDateChars at hc
  rcases List.mem_append.mp hc with hc | hc
  · rcases List.mem_append.mp hc with hc | hc
    · simp [isPlainChar, pad_all_digit _ _ c hc]
    · rcases List.mem_cons.mp hc with rfl | hc
      · decide
      · simp [isPlainChar, pad_all_digit _ _ c hc]
  · rcases List.mem_cons.mp hc with rfl | hc
    · decide
    · simp [isPlainChar, pad_all_digit _ _ c hc]

lemma plain_not_naToken (l : List Char) (hne : l ≠ [])
    (h : ∀ c ∈ l, isPlainChar c = true) : String.mk l ∉ naTokens := by
  intro hmem
  simp only [naTokens, List.mem_cons, List.not_mem_nil, or_false] at hmem
  have hbad : l = [] ∨ ∃ c ∈ l, isPlainChar c = false := by
    rcases hmem with h1 | h1 | h1 | h1 | h1 | h1 | h1 | h1 | h1 | h1 | h1 | h1 |
      h1 | h1 | h1 | h1 | h1 | h1 | h1 <;>
      [ exact Or.inl (congrArg String.data h1);
        skip; skip; skip; skip; skip; skip; skip; skip; skip; skip; skip; skip;
        skip; skip; skip; skip; skip; skip ] <;>
      (right; rw [show l = _ from congrArg String.data h1]; decide)
  rcases hbad with hb | ⟨c, hc, hcf⟩
  · exact hne hb
  · rw [h c hc] at hcf
    cases hcf

lemma plain_not_boolToken (l : List Char)
    (h : ∀ c ∈ l, isPlainChar c = true) :
    parseBoolToken (String.mk l) = Option.none := by
  have hne : ∀ t : String, (∃ c ∈ t.data, isPlainChar c = false) →
      String.mk l ≠ t := by
    rintro t ⟨c, hc, hcf⟩ he
    rw [show l = t.data from congrArg String.data he] at h
    rw [h c hc] at hcf
    cases hcf
  unfold parseBoolToken
  rw [if_neg (by rintro (he | he | he) <;> exact hne _ (by decide) he),
    if_neg (by rintro (he | he | he) <;> exact hne _ (by decide) he)]

/-! Normal forms of decimal floats. -/

/-- The normal form invariant of a `PFloat.fin m k` pair. -/
def IsNormDec (m : ℤ) (k : ℕ) : Prop := (k ≠ 0 → ¬ (10 ∣ m)) ∧ (m = 0 → k = 0)

lemma stripZeros_norm (m : ℤ) (k : ℕ) :
    IsNormDec (stripZeros m k).1 (stripZeros m k).2 := by
  induction k generalizing m with
  | zero => exact ⟨fun h => absurd rfl h, fun _ => rfl⟩
  | succ k ih =>
    by_cases hm : m % 10 = 0
    · simp only [stripZeros, if_pos hm]
      exact ih (m / 10)
    · simp only [stripZeros, if_neg hm]
      constructor
      · intro _ hdvd
        exact hm (Int.emod_eq_zero_of_dvd hdvd)
      · intro h0
        exact absurd (by rw [h0]; rfl) hm

lemma stripZeros_id (m : ℤ) (k : ℕ) (h : IsNormDec m k) : stripZeros m k = (m, k) := by
  cases k with
  | zero => rfl
  | succ k =>
    have hm : m % 10 ≠ 0 := fun h0 => h.1 (by omega) (Int.dvd_of_emod_eq_zero h0)
    simp [stripZeros, hm]

/-- The floats this program constructs: `NaN`, infinities, or a normalized
decimal pair. -/
def GoodFloat : PFloat → Prop
  | .nan => True
  | .inf _ => True
  | .fin m k => IsNormDec m k

lemma mkFin_good (m : ℤ) (k : ℕ) : GoodFloat (mkFin m k) := stripZeros_norm m k

lemma applyExp_good (m : ℤ) (k : ℕ) (e : ℤ) : GoodFloat (applyExp m k e) := by
  unfold applyExp
  split
  · exact mkFin_good _ _
  · exact mkFin_good _ _

lemma parseFloatL_good (l : List Char) (f : PFloat) (h : parseFloatL l = some f) :
    GoodFloat f := by
  unfold parseFloatL at h
  simp only [] at h
  split at h
  · injection h with h2
    exact h2 ▸ trivial
  · split at h
    · injection h with h2
      exact h2 ▸ trivial
    · split at h
      · cases h
      · split at h
        · cases h
        · split at h
          · injection h with h2
            exact h2 ▸ applyExp_good _ _ _
          · cases h

lemma parseFloat_good (s : String) (f : PFloat) (h : parseFloat s = some f) :
    GoodFloat f := parseFloatL_good s.data f h

/-! Structure of the parsers on rendered text. -/

lemma takeWhile_eq_self_of_all {p : Char → Bool} (l : List Char)
    (h : ∀ c ∈ l, p c = true) : l.takeWhile p = l := by
  have := takeWhile_append_of_all l [] h
  simpa using this

lemma dropWhile_eq_nil_of_all {p : Char → Bool} (l : List Char)
    (h : ∀ c ∈ l, p c = true) : l.dropWhile p = [] := by
  have := dropWhile_append_of_all l [] h
  simpa using this

lemma splitSign_neg (l : List Char) : splitSign ('-' :: l) = (true, l) := rfl

lemma splitSign_digit (c : Char) (l : List Char) (h : c.isDigit = true) :
    splitSign (c :: l) = (false, c :: l) := by
  have h1 : c ≠ '+' := by rintro rfl; exact absurd h (by decide)
  have h2 : c ≠ '-' := by rintro rfl; exact absurd h (by decide)
  simp [splitSign, h1, h2]

lemma lower_ne_word (body : List Char) (c : Char) (hc : c ∈ body)
    (hlc : c.toLower = c) (w : List Char) (hw : c ∉ w) : lowerChars body ≠ w := by
  intro he
  have hmem : c ∈ lowerChars body := by
    have := List.mem_map_of_mem Char.toLower hc
    rwa [hlc] at this
  exact hw (he ▸ hmem)

/-- `parseDecimalBody` on a printed mantissa `I.F`. -/
lemma parseDecimalBody_print (I : ℕ) (frac : List Char)
    (hfd : ∀ c ∈ frac, c.isDigit = true) :
    parseDecimalBody (printNatChars I ++ '.' :: frac) =
      some ((I * natPow10 frac.length + digitsToNat frac, frac.length), []) := by
  unfold parseDecimalBody
  rw [takeWhile_append_of_all _ _ (printNat_all_digit I),
    dropWhile_append_of_all _ _ (printNat_all_digit I),
    takeWhile_cons_neg '.' frac (by decide),
    dropWhile_cons_neg '.' frac (by decide), List.append_nil]
  simp only [takeWhile_eq_self_of_all frac hfd, dropWhile_eq_nil_of_all frac hfd]
  rw [if_neg (by simp [printNat_ne_nil I])]
  rw [digitsToNat_printNat]

lemma reprFin_structure (m : ℤ) (k : ℕ) :
    reprFin m k = (if m < 0 then ['-'] else []) ++
      (printNatChars (m.natAbs / natPow10 k) ++
        '.' :: (if k = 0 then ['0'] else padNatChars k (m.natAbs % natPow10 k))) := by
  unfold reprFin
  rw [List.append_assoc]

/-- The generic parse of a rendered float `±I.frac`: everything up to the
final exponent application. -/
lemma parseFloatL_repr_core (m : ℤ) (k : ℕ) (frac : List Char)
    (hfr : reprFin m k = (if m < 0 then ['-'] else []) ++
      (printNatChars (m.natAbs / natPow10 k) ++ '.' :: frac))
    (hfd : ∀ c ∈ frac, c.isDigit = true) :
    parseFloatL (reprFin m k) = some (applyExp
      (if decide (m < 0) = true then
        -((m.natAbs / natPow10 k * natPow10 frac.length + digitsToNat frac : ℕ) : ℤ)
       else ((m.natAbs / natPow10 k * natPow10 frac.length + digitsToNat frac : ℕ) : ℤ))
      frac.length 0) := by
  have hstrip : stripWs (reprFin m k) = reprFin m k :=
    stripWs_eq_self _ fun c hc => plain_not_ws (reprFin_plain m k c hc)
  have hsign : splitSign (reprFin m k) =
      (decide (m < 0), printNatChars (m.natAbs / natPow10 k) ++ '.' :: frac) := by
    by_cases hm : m < 0
    · rw [hfr, if_pos hm]
      simp only [List.singleton_append, splitSign_neg]
      simp [hm]
    · rw [hfr, if_neg hm]
      rw [List.nil_append]
      cases hP : printNatChars (m.natAbs / natPow10 k) with
      | nil => exact absurd hP (printNat_ne_nil _)
      | cons c cs =>
        have hcd : c.isDigit = true :=
          printNat_all_digit _ c (by rw [hP]; exact List.mem_cons_self c cs)
        rw [List.cons_append, splitSign_digit c _ hcd]
        simp [hm]
  have hdot : '.' ∈ printNatChars (m.natAbs / natPow10 k) ++ '.' :: frac :=
    List.mem_append_right _ (List.mem_cons_self _ _)
  unfold parseFloatL
  simp only [hstrip, hsign]
  rw [if_neg (not_or.mpr
    ⟨lower_ne_word _ '.' hdot (by decide) _ (by decide),
     lower_ne_word _ '.' hdot (by decide) _ (by decide)⟩)]
  rw [if_neg (lower_ne_word _ '.' hdot (by decide) _ (by decide))]
  rw [parseDecimalBody_print _ _ hfd]
  rfl

/-- The printer-parser round trip for finite floats: re-parsing the rendered
text of a normalized decimal float recovers it exactly. -/
theorem parseFloatL_reprFin (m : ℤ) (k : ℕ) (h : IsNormDec m k) :
    parseFloatL (reprFin m k) = some (.fin m k) := by
  have hpos := natPow10_pos k
  have hFlt : m.natAbs % natPow10 k < natPow10 k := Nat.mod_lt _ hpos
  by_cases hk : k = 0
  · subst hk
    have hcore := parseFloatL_repr_core m 0 ['0']
      (by rw [reprFin_structure]; simp) (by decide)
    rw [hcore]
    have hI : m.natAbs / natPow10 0 = m.natAbs := Nat.div_one _
    have hd0 : digitsToNat ['0'] = 0 := by decide
    simp only [hI, hd0, List.length_singleton]
    have hM : (if decide (m < 0) = true then
        -((m.natAbs * natPow10 1 + 0 : ℕ) : ℤ)
        else ((m.natAbs * natPow10 1 + 0 : ℕ) : ℤ)) = m * 10 := by
      have h10 : natPow10 1 = 10 := rfl
      simp only [decide_eq_true_eq, h10]
      split <;>
        (simp only [Nat.cast_mul, Nat.cast_add, Nat.cast_ofNat, Nat.cast_zero]; omega)
    rw [hM]
    unfold applyExp
    rw [if_neg (by norm_num)]
    have ht : (((1 : ℕ) : ℤ) - 0).toNat = 1 := by norm_num
    rw [ht]
    unfold mkFin
    have hs : stripZeros (m * 10) 1 = (m, 0) := by
      simp only [stripZeros, Int.mul_emod_left, if_true,
        Int.mul_ediv_cancel m (by norm_num : (10 : ℤ) ≠ 0)]
    rw [hs]
  · have hk1 : 1 ≤ k := by omega
    have hcore := parseFloatL_repr_core m k (padNatChars k (m.natAbs % natPow10 k))
      (by rw [reprFin_structure, if_neg hk]) (pad_all_digit _ _)
    rw [hcore]
    have hlen : (padNatChars k (m.natAbs % natPow10 k)).length = k :=
      pad_length k _ hk1 hFlt
    rw [hlen, digitsToNat_pad]
    have hmant : m.natAbs / natPow10 k * natPow10 k + m.natAbs % natPow10 k
        = m.natAbs := Nat.div_add_mod' _ _
    rw [hmant]
    have hM : (if decide (m < 0) = true then -((m.natAbs : ℕ) : ℤ)
        else ((m.natAbs : ℕ) : ℤ)) = m := by
      simp only [decide_eq_true_eq]
      split <;> omega
    rw [hM]
    unfold applyExp
    rw [if_neg (by omega)]
    have ht : (((k : ℕ) : ℤ) - 0).toNat = k := by omega
    rw [ht]
    unfold mkFin
    rw [stripZeros_id m k h]

lemma iso_assoc (d : PyDate) :
    isoDateChars d = padNatChars 4 d.year ++
      ('-' :: (padNatChars 2 d.month ++ '-' :: padNatChars 2 d.day)) := by
  unfold isoDateChars
  rw [List.append_assoc]
  rfl

lemma stripWs_iso (d : PyDate) : stripWs (isoDateChars d) = isoDateChars d :=
  stripWs_eq_self _ fun c hc => plain_not_ws (iso_plain d c hc)

/-- The ISO round trip for dates within the pandas `Timestamp` span. -/
theorem parseDateChars_iso (d : PyDate) (h1 : validDate d = true)
    (h2 : dateLE tsMinDate d = true) (h3 : dateLE d tsMaxDate = true) :
    parseDateChars (isoDateChars d) = some d := by
  unfold parseDateChars
  rw [stripWs_iso, iso_assoc]
  simp only []
  rw [takeWhile_append_of_all _ _ (pad_all_digit 4 d.year),
    dropWhile_append_of_all _ _ (pad_all_digit 4 d.year),
    takeWhile_cons_neg '-' _ (by decide), dropWhile_cons_neg '-' _ (by decide),
    List.append_nil]
  simp only
  rw [takeWhile_append_of_all _ _ (pad_all_digit 2 d.month),
    dropWhile_append_of_all _ _ (pad_all_digit 2 d.month),
    takeWhile_cons_neg '-' _ (by decide), dropWhile_cons_neg '-' _ (by decide),
    List.append_nil]
  simp only
  rw [takeWhile_eq_self_of_all _ (pad_all_digit 2 d.day),
    dropWhile_eq_nil_of_all _ (pad_all_digit 2 d.day)]
  rw [if_neg (by simp [List.isEmpty_eq_true, pad_ne_nil])]
  rw [digitsToNat_pad, digitsToNat_pad, digitsToNat_pad]
  have : (⟨d.year, d.month, d.day⟩ : PyDate) = d := rfl
  rw [this, if_pos (by rw [h1, h2, h3]; rfl)]

/-- A rendered float is never integer-shaped (it contains a point). -/
lemma parseIntStr_reprFin (m : ℤ) (k : ℕ) :
    parseIntStr (String.mk (reprFin m k)) = none := by
  unfold parseIntStr
  have hs : stripWs (reprFin m k) = reprFin m k :=
    stripWs_eq_self _ fun c hc => plain_not_ws (reprFin_plain m k c hc)
  show (if _ then _ else _) = _
  have hdotbody : '.' ∈ printNatChars (m.natAbs / natPow10 k) ++
      '.' :: (if k = 0 then ['0'] else padNatChars k (m.natAbs % natPow10 k)) :=
    List.mem_append_right _ (List.mem_cons_self _ _)
  have hdot2 : '.' ∈ (splitSign (stripWs (String.mk (reprFin m k)).data)).2 := by
    show '.' ∈ (splitSign (stripWs (reprFin m k))).2
    rw [hs, reprFin_structure]
    by_cases hm : m < 0
    · rw [if_pos hm]
      simp only [List.singleton_append, splitSign_neg]
      exact hdotbody
    · rw [if_neg hm, List.nil_append]
      cases hP : printNatChars (m.natAbs / natPow10 k) with
      | nil => exact absurd hP (printNat_ne_nil _)
      | cons c cs =>
        have hcd : c.isDigit = true :=
          printNat_all_digit _ c (by rw [hP]; exact List.mem_cons_self c cs)
        rw [List.cons_append, splitSign_digit c _ hcd]
        rw [← List.cons_append, ← hP]
        exact hdotbody
  rw [if_neg ?_]
  intro hcond
  have hall := (Bool.and_eq_true _ _ |>.mp hcond).2
  rw [List.all_eq_true] at hall
  exact absurd (hall '.' hdot2) (by decide)

/-- An ISO date string is never integer-shaped (embedded dash). -/
lemma parseIntStr_iso (d : PyDate) : parseIntStr (isoDate d) = none := by
  unfold parseIntStr
  have hdash : '-' ∈ isoDateChars d := by
    rw [iso_assoc]
    exact List.mem_append_right _ (List.mem_cons_self _ _)
  have hdash2 : '-' ∈ (splitSign (stripWs (isoDate d).data)).2 := by
    show '-' ∈ (splitSign (stripWs (isoDateChars d))).2
    rw [stripWs_iso]
    cases hP : padNatChars 4 d.year with
    | nil => exact absurd hP (pad_ne_nil _ _)
    | cons c cs =>
      have hcd : c.isDigit = true :=
        pad_all_digit _ _ c (by rw [hP]; exact List.mem_cons_self c cs)
      rw [iso_assoc, hP, List.cons_append, splitSign_digit c _ hcd]
      rw [← List.cons_append, ← hP, ← iso_assoc]
      exact hdash
  rw [if_neg ?_]
  intro hcond
  have hall := (Bool.and_eq_true _ _ |>.mp hcond).2
  rw [List.all_eq_true] at hall
  exact absurd (hall '-' hdash2) (by decide)

/-- An ISO date string does not parse as a float. -/
lemma parseFloatL_iso (d : PyDate) : parseFloatL (isoDateChars d) = none := by
  unfold parseFloatL
  rw [stripWs_iso]
  have hsign : splitSign (isoDateChars d) = (false, isoDateChars d) := by
    cases hP : padNatChars 4 d.year with
    | nil => exact absurd hP (pad_ne_nil _ _)
    | cons c cs =>
      have hcd : c.isDigit = true :=
        pad_all_digit _ _ c (by rw [hP]; exact List.mem_cons_self c cs)
      rw [iso_assoc, hP, List.cons_append, splitSign_digit c _ hcd,
        ← List.cons_append, ← hP, ← iso_assoc]
  simp only [hsign]
  have hdash : '-' ∈ isoDateChars d := by
    rw [iso_assoc]
    exact List.mem_append_right _ (List.mem_cons_self _ _)
  rw [if_neg (not_or.mpr
    ⟨lower_ne_word _ '-' hdash (by decide) _ (by decide),
     lower_ne_word _ '-' hdash (by decide) _ (by decide)⟩)]
  rw [if_neg (lower_ne_word _ '-' hdash (by decide) _ (by decide))]
  rw [iso_assoc]
  rw [show parseDecimalBody (padNatChars 4 d.year ++
      ('-' :: (padNatChars 2 d.month ++ '-' :: padNatChars 2 d.day))) =
      some ((digitsToNat (padNatChars 4 d.year), 0),
        '-' :: (padNatChars 2 d.month ++ '-' :: padNatChars 2 d.day)) from ?_]
  · rfl
  · unfold parseDecimalBody
    rw [takeWhile_append_of_all _ _ (pad_all_digit 4 d.year),
      dropWhile_append_of_all _ _ (pad_all_digit 4 d.year),
      takeWhile_cons_neg '-' _ (by decide), dropWhile_cons_neg '-' _ (by decide),
      List.append_nil]
    simp only
    rw [if_neg (by simp [pad_ne_nil])]
    rfl

/-- Integer-shaped text always parses as a float too. -/
lemma parseFloat_of_parseIntStr (s : String) (h : (parseIntStr s).isSome = true) :
    (parseFloat s).isSome = true := by
  unfold parseIntStr at h
  unfold parseFloat parseFloatL
  by_cases hw1 : lowerChars (splitSign (stripWs s.data)).2 = "inf".data ∨
      lowerChars (splitSign (stripWs s.data)).2 = "infinity".data
  · rw [if_pos hw1]
    rfl
  · rw [if_neg hw1]
    by_cases hw2 : lowerChars (splitSign (stripWs s.data)).2 = "nan".data
    · rw [if_pos hw2]
      rfl
    · rw [if_neg hw2]
      simp only [] at h
      split at h
      · rename_i hcond
        have hne := (Bool.and_eq_true _ _ |>.mp hcond).1
        have hall := (Bool.and_eq_true _ _ |>.mp hcond).2
        rw [List.all_eq_true] at hall
        have hdec : parseDecimalBody (splitSign (stripWs s.data)).2 =
            some ((digitsToNat (splitSign (stripWs s.data)).2, 0), []) := by
          unfold parseDecimalBody
          rw [takeWhile_eq_self_of_all _ hall, dropWhile_eq_nil_of_all _ hall]
          simp only
          rw [if_neg (by simpa using hne)]
        rw [hdec]
        rfl
      · cases h

lemma reprFin_ne_nil (m : ℤ) (k : ℕ) : reprFin m k ≠ [] := by
  rw [reprFin_structure]
  intro h
  rcases List.append_eq_nil.mp h with ⟨h1, h2⟩
  rcases List.append_eq_nil.mp h2 with ⟨h3, h4⟩
  cases h4

/-! Column inference on rendered cells. -/

lemma inferColumn_object (cells : List String)
    (hna : ∀ c ∈ cells, c ∉ naTokens)
    (c0 : String) (hc0 : c0 ∈ cells) (hc0f : parseFloat c0 = none)
    (c1 : String) (hc1 : c1 ∈ cells) (hc1b : parseBoolToken c1 = Option.none) :
    inferColumn cells = cells.map Raw.str := by
  have hint : ¬ (cells.all fun c =>
      decide (c ∉ naTokens) && (parseIntStr c).isSome) = true := by
    rw [List.all_eq_true]
    intro hall
    have h := hall c0 hc0
    rw [Bool.and_eq_true] at h
    have h2 := parseFloat_of_parseIntStr c0 h.2
    rw [hc0f] at h2
    cases h2
  have hflt : ¬ (cells.all fun c =>
      decide (c ∈ naTokens) || (parseFloat c).isSome) = true := by
    rw [List.all_eq_true]
    intro hall
    have h := hall c0 hc0
    rw [Bool.or_eq_true] at h
    rcases h with h | h
    · exact hna c0 hc0 (by simpa using h)
    · rw [hc0f] at h
      cases h
  have hbool : ¬ (cells.all fun c =>
      decide (c ∈ naTokens) || (parseBoolToken c).isSome) = true := by
    rw [List.all_eq_true]
    intro hall
    have h := hall c1 hc1
    rw [Bool.or_eq_true] at h
    rcases h with h | h
    · exact hna c1 hc1 (by simpa using h)
    · rw [hc1b] at h
      cases h
  unfold inferColumn
  rw [if_neg hint, if_neg hflt, if_neg hbool]
  exact List.map_congr_left fun c hc => by rw [if_neg (hna c hc)]

lemma inferColumn_floats (fls : List PFloat)
    (hg : ∀ f ∈ fls, GoodFloat f) (hnn : ∀ f ∈ fls, f ≠ .nan) :
    inferColumn (fls.map fun f => String.mk (reprFloat f)) = fls.map Raw.num := by
  cases fls with
  | nil => rfl
  | cons f0 fs =>
    have hcell : ∀ f ∈ f0 :: fs, parseFloat (String.mk (reprFloat f)) = some f ∧
        String.mk (reprFloat f) ∉ naTokens ∧
        parseIntStr (String.mk (reprFloat f)) = none := by
      intro f hf
      cases f with
      | nan => exact absurd rfl (hnn _ hf)
      | inf b => cases b <;> exact ⟨by decide, by decide, by decide⟩
      | fin m k =>
        have hnorm : IsNormDec m k := hg _ hf
        exact ⟨parseFloatL_reprFin m k hnorm,
          plain_not_naToken _ (reprFin_ne_nil m k) (reprFin_plain m k),
          parseIntStr_reprFin m k⟩
    have hint : ¬ (((f0 :: fs).map fun f => String.mk (reprFloat f)).all fun c =>
        decide (c ∉ naTokens) && (parseIntStr c).isSome) = true := by
      rw [List.all_eq_true]
      intro hall
      have h := hall (String.mk (reprFloat f0)) (by simp)
      rw [Bool.and_eq_true] at h
      rw [(hcell f0 (by simp)).2.2] at h
      cases h.2
    have hflt : (((f0 :: fs).map fun f => String.mk (reprFloat f)).all fun c =>
        decide (c ∈ naTokens) || (parseFloat c).isSome) = true := by
      rw [List.all_eq_true]
      intro c hc
      rw [List.mem_map] at hc
      obtain ⟨f, hf, rfl⟩ := hc
      rw [Bool.or_eq_true]
      right
      rw [(hcell f hf).1]
      rfl
    unfold inferColumn
    rw [if_neg hint, if_pos hflt, List.map_map]
    refine List.map_congr_left fun f hf => ?_
    show (if String.mk (reprFloat f) ∈ naTokens then Raw.num .nan else _) = Raw.num f
    rw [if_neg (hcell f hf).2.1, (hcell f hf).1]

/-! List plumbing for the dataframe reconstruction. -/

lemma getD_map {α β : Type} (l : List α) (g : α → β) (j : ℕ) (d : β)
    (h : j < l.length) : (l.map g).getD j d = g l[j] := by
  rw [List.getD_eq_getElem?_getD, List.getElem?_map]
  rw [List.getElem?_eq_getElem h]
  rfl

lemma map_range_getD {α : Type} (l : List α) (d : α) :
    (List.range l.length).map (fun j => l.getD j d) = l := by
  induction l with
  | nil => rfl
  | cons a t ih =>
    rw [List.length_cons, List.range_succ_eq_map, List.map_cons, List.map_map]
    have h2 : (List.range t.length).map ((fun j => (a :: t).getD j d) ∘ Nat.succ)
        = t := by
      have hc : ∀ j ∈ List.range t.length,
          ((fun j => (a :: t).getD j d) ∘ Nat.succ) j = t.getD j d := fun j hj => rfl
      rw [List.map_congr_left hc, ih]
    rw [h2]
    rfl

lemma foldr_max_const (l : List ℕ) (n : ℕ) (hne : l ≠ [])
    (h : ∀ x ∈ l, x = n) : l.foldr max 0 = n := by
  induction l with
  | nil => exact absurd rfl hne
  | cons a t ih =>
    rw [List.foldr_cons, h a (by simp)]
    cases t with
    | nil => simp
    | cons b t2 =>
      rw [ih (by simp) fun x hx => h x (by simp [hx])]
      simp

lemma lookup_keyed {α : Type} (l : List (String × α))
    (hnd : (l.map Prod.fst).Nodup) (j : ℕ) (h : j < l.length) :
    l.lookup l[j].1 = some l[j].2 := by
  induction l generalizing j with
  | nil => simp at h
  | cons p t ih =>
    cases j with
    | zero =>
      show List.lookup p.1 (p :: t) = some p.2
      simp [List.lookup]
    | succ j =>
      have hj : j < t.length := by simpa using h
      have hne : (t[j]).1 ≠ p.1 := by
        intro he
        rw [List.map_cons, List.nodup_cons] at hnd
        exact hnd.1 (he ▸ List.mem_map_of_mem Prod.fst (t.getElem_mem hj))
      have hnd2 : (t.map Prod.fst).Nodup := by
        rw [List.map_cons, List.nodup_cons] at hnd
        exact hnd.2
      show List.lookup (t[j]).1 (p :: t) = some (t[j]).2
      have hb : ((t[j]).1 == p.1) = false := by simp [hne]
      rcases p with ⟨k0, v0⟩
      simp only [List.lookup, hb]
      exact ih hnd2 j hj

lemma dfProject_self (cols : Df) (hnd : (cols.map Prod.fst).Nodup) :
    dfProject cols (cols.map Prod.fst) = cols := by
  induction cols with
  | nil => rfl
  | cons p t ih =>
    rw [List.map_cons, List.nodup_cons] at hnd
    unfold dfProject
    rw [List.map_cons]
    rw [List.map_cons]
    congr 1
    · rw [List.find?_cons_of_pos _ (by simp)]
    · have hstep : ∀ c ∈ t.map Prod.fst,
          ((fun c => (c, match (p :: t).find? fun q => q.1 == c with
              | some q => q.2
              | Option.none => [])) c) =
          ((fun c => (c, match t.find? fun q => q.1 == c with
              | some q => q.2
              | Option.none => [])) c) := by
        intro c hc
        have hne : p.1 ≠ c := fun he => hnd.1 (he ▸ hc)
        simp only
        rw [List.find?_cons_of_neg _ (by simpa using hne)]
      rw [List.map_congr_left hstep]
      exact ih hnd.2

/-! Classification of stored values by field type. -/

/-- The raw shapes the interactive widgets can hand to `submitRow`: text
widgets produce strings, the date widget dates or `None`. -/
def WidgetRaw : Raw → Prop
  | .none => True
  | .str _ => True
  | .date _ => True
  | _ => False

lemma iso_ne_nil (d : PyDate) : isoDateChars d ≠ [] := by
  rw [iso_assoc]
  intro h
  rcases List.append_eq_nil.mp h with ⟨h1, h2⟩
  exact pad_ne_nil 4 d.year h1

lemma pyStrip_iso_ne (d : PyDate) : pyStrip (isoDate d) ≠ "" := by
  show pyStrip ⟨isoDateChars d⟩ ≠ ""
  unfold pyStrip
  show (⟨stripWs (isoDateChars d)⟩ : String) ≠ ""
  rw [stripWs_iso]
  intro h
  exact iso_ne_nil d (congrArg String.data h)

lemma exceptNum_ok (name : String) (r : Except String PFloat) (v : Value)
    (h : (match r with
          | .ok f => (Except.ok (Value.num f) : Except String Value)
          | .error e0 => .error (castErrMsg name .number e0)) = .ok v) :
    ∃ fl, r = .ok fl ∧ v = .num fl := by
  cases r with
  | ok f => exact ⟨f, rfl, by injection h with h2; exact h2.symm⟩
  | error e => cases h

lemma exceptDate_ok (name : String) (r : Except String PyDate) (v : Value)
    (h : (match r with
          | .ok d => (Except.ok (Value.date d) : Except String Value)
          | .error e0 => .error (castErrMsg name .date e0)) = .ok v) :
    ∃ dd, r = .ok dd ∧ v = .date dd := by
  cases r with
  | ok d => exact ⟨d, rfl, by injection h with h2; exact h2.symm⟩
  | error e => cases h

lemma pyFloatRaw_str (s : String) : pyFloatRaw (Raw.str s) =
    (match parseFloat s with
     | some f => .ok f
     | Option.none =>
       .error ("could not convert string to float: '" ++ s ++ "'")) := rfl

lemma castValue_number_classify (name : String) (raw : Raw) (v : Value)
    (hw : WidgetRaw raw) (h : castValue name .number raw = .ok v) :
    v = .null ∨ ∃ fl, v = .num fl ∧ GoodFloat fl := by
  cases raw with
  | none =>
    left
    have : castValue name .number Raw.none = .ok .null := rfl
    rw [this] at h
    injection h with h2
    exact h2.symm
  | str s =>
    by_cases hs : pyStrip s = ""
    · left
      have : normRaw (Raw.str s) = Raw.none := by simp [normRaw, hs]
      unfold castValue at h
      rw [this] at h
      injection h with h2
      exact h2.symm
    · right
      have hn : normRaw (Raw.str s) = Raw.str s := by simp [normRaw, hs]
      unfold castValue at h
      rw [hn] at h
      unfold castCore at h
      rw [if_neg (by simp)] at h
      obtain ⟨fl, hr, hv⟩ := exceptNum_ok name (pyFloatRaw (Raw.str s)) v h
      rw [pyFloatRaw_str] at hr
      cases hp : parseFloat s with
      | some f =>
        rw [hp] at hr
        injection hr with h2
        exact ⟨fl, hv, h2 ▸ parseFloat_good s f hp⟩
      | none =>
        rw [hp] at hr
        cases hr
  | date d =>
    unfold castValue normRaw castCore at h
    rw [if_neg (by simp)] at h
    obtain ⟨fl, hr, hv⟩ := exceptNum_ok name (pyFloatRaw (Raw.date d)) v h
    rw [show pyFloatRaw (Raw.date d) = Except.error
      "float() argument must be a string or a real number, not 'datetime.date'"
      from rfl] at hr
    cases hr
  | int n => exact hw.elim
  | num f => exact hw.elim
  | bool b => exact hw.elim

lemma castValue_text_str (name : String) (ft : FType)
    (hft : ft = .shortText ∨ ft = .longText) (s : String) (hs : pyStrip s ≠ "") :
    castValue name ft (Raw.str s) = .ok (.str s) := by
  have hn : normRaw (Raw.str s) = Raw.str s := by simp [normRaw, hs]
  unfold castValue
  rw [hn]
  rcases hft with rfl | rfl <;> rfl

lemma castValue_text_classify (name : String) (ft : FType)
    (hft : ft = .shortText ∨ ft = .longText) (raw : Raw) (v : Value)
    (hw : WidgetRaw raw) (h : castValue name ft raw = .ok v) :
    v = .null ∨ ∃ s, v = .str s ∧ pyStrip s ≠ "" := by
  cases raw with
  | none =>
    left
    have : castValue name ft Raw.none = .ok .null := rfl
    rw [this] at h
    injection h with h2
    exact h2.symm
  | str s =>
    by_cases hs : pyStrip s = ""
    · left
      have hn : normRaw (Raw.str s) = Raw.none := by simp [normRaw, hs]
      unfold castValue at h
      rw [hn] at h
      injection h with h2
      exact h2.symm
    · right
      rw [castValue_text_str name ft hft s hs] at h
      injection h with h2
      exact ⟨s, h2.symm, hs⟩
  | date d =>
    right
    have hn : normRaw (Raw.date d) = Raw.date d := rfl
    unfold castValue at h
    rw [hn] at h
    have : castCore name ft (Raw.date d) = .ok (.str (isoDate d)) := by
      unfold castCore
      rw [if_neg (by simp)]
      rcases hft with rfl | rfl <;> rfl
    rw [this] at h
    injection h with h2
    exact ⟨isoDate d, h2.symm, pyStrip_iso_ne d⟩
  | int n => exact hw.elim
  | num f => exact hw.elim
  | bool b => exact hw.elim

lemma castValue_date_classify (name : String) (raw : Raw) (v : Value)
    (hw : WidgetRaw raw) (h : castValue name .date raw = .ok v) :
    v = .null ∨ ∃ dd, v = .date dd := by
  cases raw with
  | none =>
    left
    have : castValue name .date Raw.none = .ok .null := rfl
    rw [this] at h
    injection h with h2
    exact h2.symm
  | str s =>
    by_cases hs : pyStrip s = ""
    · left
      have hn : normRaw (Raw.str s) = Raw.none := by simp [normRaw, hs]
      unfold castValue at h
      rw [hn] at h
      injection h with h2
      exact h2.symm
    · right
      have hn : normRaw (Raw.str s) = Raw.str s := by simp [normRaw, hs]
      unfold castValue at h
      rw [hn] at h
      unfold castCore at h
      rw [if_neg (by simp)] at h
      obtain ⟨dd, hr, hv⟩ := exceptDate_ok name (pdToDatetimeDateRaw (Raw.str s)) v h
      exact ⟨dd, hv⟩
  | date d =>
    right
    have : castValue name .date (Raw.date d) = .ok (.date d) := rfl
    rw [this] at h
    injection h with h2
    exact ⟨d, h2.symm⟩
  | int n => exact hw.elim
  | num f => exact hw.elim
  | bool b => exact hw.elim

lemma castValue_number_num (name : String) (fl : PFloat) :
    castValue name .number (Raw.num fl) = .ok (.num fl) := rfl

lemma castValue_date_iso (name : String) (dd : PyDate) (h1 : validDate dd = true)
    (h2 : dateLE tsMinDate dd = true) (h3 : dateLE dd tsMaxDate = true) :
    castValue name .date (Raw.str (isoDate dd)) = .ok (.date dd) := by
  have hn : normRaw (Raw.str (isoDate dd)) = Raw.str (isoDate dd) := by
    simp [normRaw, pyStrip_iso_ne dd]
  unfold castValue
  rw [hn]
  unfold castCore
  rw [if_neg (by simp)]
  have hp : pdToDatetimeDateRaw (Raw.str (isoDate dd)) = .ok dd := by
    show (match parseDateChars (isoDate dd).data with
      | some d => (Except.ok d : Except String PyDate)
      | Option.none =>
        .error ("Unknown datetime string format, unable to parse: " ++ isoDate dd))
      = .ok dd
    rw [show (isoDate dd).data = isoDateChars dd from rfl,
      parseDateChars_iso dd h1 h2 h3]
  simp only [hp]

/-- A row whose keys are exactly the (distinct) schema names is the list of
its per-field values in schema order. -/
lemma row_eta (schema : List Field) (r : Row)
    (hk : r.map Prod.fst = schema.map Field.name)
    (hnd : (schema.map Field.name).Nodup) :
    r = schema.map fun f => (f.name, valueAt r f) := by
  induction schema generalizing r with
  | nil =>
    cases r with
    | nil => rfl
    | cons p t => simp at hk
  | cons f rest ih =>
    cases r with
    | nil => simp at hk
    | cons p t =>
      simp only [List.map_cons, List.cons.injEq] at hk
      obtain ⟨hp, ht⟩ := hk
      rw [List.map_cons, List.nodup_cons] at hnd
      have hv : valueAt (p :: t) f = p.2 := by
        unfold valueAt
        rcases p with ⟨k0, v0⟩
        simp only at hp
        subst hp
        simp [List.lookup]
      have htail : ∀ g ∈ rest, valueAt (p :: t) g = valueAt t g := by
        intro g hg
        unfold valueAt
        rcases p with ⟨k0, v0⟩
        simp only at hp
        have hne : g.name ≠ k0 := by
          intro he
          exact hnd.1 (by
            rw [← hp, ← he]
            exact List.mem_map_of_mem Field.name hg)
        have hb : (g.name == k0) = false := by simp [hne]
        simp [List.lookup, hb]
      have hhead : p = (f.name, valueAt (p :: t) f) := by
        rcases p with ⟨k0, v0⟩
        simp only at hp
        rw [hv]
        rw [hp]
      rw [List.map_cons]
      rw [show (rest.map fun g => (g.name, valueAt (p :: t) g)) =
          (rest.map fun g => (g.name, valueAt t g)) from
          List.map_congr_left fun g hg => by rw [htail g hg]]
      rw [← ih t ht hnd.2, ← hhead]

/-- When every field of the schema casts successfully, `vcLoop` rebuilds
exactly the keyed list of results, in schema order. -/
lemma vcLoop_all_ok (rowd : RawRow) (schema : List Field) (w : Field → Value)
    (h : ∀ f ∈ schema, castValue f.name f.ftype (dictGetRaw rowd f.name) = .ok (w f)) :
    ∀ out, (∀ f ∈ schema, f.name ∉ out.map Prod.fst) →
      (schema.map Field.name).Nodup →
      vcLoop rowd schema out = .ok (out ++ schema.map fun f => (f.name, w f)) := by
  induction schema with
  | nil =>
    intro out _ _
    simp [vcLoop]
  | cons f rest ih =>
    intro out hfresh hnd
    rw [List.map_cons, List.nodup_cons] at hnd
    have hf := h f (by simp)
    show (match castValue f.name f.ftype (dictGetRaw rowd f.name) with
      | .ok v => vcLoop rowd rest (dictInsert out f.name v)
      | .error e => .error e) = _
    rw [hf]
    show vcLoop rowd rest (dictInsert out f.name (w f)) = _
    rw [dictInsert_fresh out f.name (w f) (hfresh f (by simp))]
    have hfresh2 : ∀ g ∈ rest, g.name ∉ (out ++ [(f.name, w f)]).map Prod.fst := by
      intro g hg
      simp only [List.map_append, List.mem_append, List.map_cons, List.map_nil,
        List.mem_singleton]
      rintro (hmem | hmem)
      · exact hfresh g (by simp [hg]) hmem
      · exact hnd.1 (hmem ▸ List.mem_map_of_mem Field.name hg)
    rw [ih (fun g hg => h g (by simp [hg])) (out ++ [(f.name, w f)]) hfresh2 hnd.2]
    rw [List.append_assoc]
    rfl

/-! Reconstruction helpers: what comes back out of the re-parsed CSV. -/

/-- The raw that the re-imported dataframe holds for field `f` of row `r`,
under the amended round-trip hypotheses. -/
def rawBack (f : Field) (r : Row) : Raw :=
  match valueAt r f with
  | .num fl => Raw.num fl
  | .str s => Raw.str s
  | .date d => Raw.str (isoDate d)
  | .null => Raw.none

def floatAt (f : Field) (r : Row) : PFloat :=
  match valueAt r f with
  | .num fl => fl
  | _ => .nan

def strAt (f : Field) (r : Row) : String :=
  match valueAt r f with
  | .str s => s
  | _ => ""

def dateAt (f : Field) (r : Row) : PyDate :=
  match valueAt r f with
  | .date d => d
  | _ => ⟨1, 1, 1⟩

lemma exportCell_num (fl : PFloat) (h : fl ≠ .nan) :
    exportCell (.num fl) = String.mk (reprFloat fl) := by
  cases fl with
  | nan => exact absurd rfl h
  | inf b => cases b <;> rfl
  | fin m k => rfl

lemma exportCell_num_ne (fl : PFloat) (h : fl ≠ .nan) :
    exportCell (.num fl) ≠ "" := by
  cases fl with
  | nan => exact absurd rfl h
  | inf b => cases b <;> decide
  | fin m k =>
    show String.mk (reprFin m k) ≠ ""
    intro he
    exact reprFin_ne_nil m k (congrArg String.data he)

lemma mem_of_lookup_eq_some {α : Type} (l : List (String × α)) (k : String) (x : α)
    (h : l.lookup k = some x) : (k, x) ∈ l := by
  induction l with
  | nil => cases h
  | cons p t ih =>
    rcases p with ⟨k0, v0⟩
    by_cases hk : (k == k0) = true
    · simp only [List.lookup, hk] at h
      injection h with h2
      rw [List.mem_cons]
      left
      rw [show k = k0 from by simpa using hk, h2]
    · have hb : (k == k0) = false := by
        revert hk
        cases k == k0 <;> simp
      simp only [List.lookup, hb] at h
      exact List.mem_cons_of_mem _ (ih h)

lemma lookup_schema_map {α : Type} (schema : List Field) (wf : Field → α)
    (hnd : (schema.map Field.name).Nodup) (f : Field) (hf : f ∈ schema) :
    (schema.map fun g => (g.name, wf g)).lookup f.name = some (wf f) := by
  induction schema with
  | nil => simp at hf
  | cons g rest ih =>
    rw [List.map_cons, List.nodup_cons] at hnd
    rcases List.mem_cons.mp hf with rfl | hf2
    · show List.lookup f.name ((f.name, wf f) :: _) = _
      simp [List.lookup]
    · have hne : f.name ≠ g.name := by
        intro he
        exact hnd.1 (he ▸ List.mem_map_of_mem Field.name hf2)
      have hb : (f.name == g.name) = false := by simp [hne]
      show List.lookup f.name ((g.name, wf g) :: _) = _
      simp only [List.lookup, hb]
      exact ih hnd.2 hf2

/-- Each stored row's keys are the schema names and each stored value is the
output of a successful widget-raw cast. -/
lemma store_row_facts (schema : List Field) (r : Row)
    (hnd : (schema.map Field.name).Nodup)
    (hwf : ∃ rawr : RawRow, (∀ p ∈ rawr, WidgetRaw p.2) ∧
      validate_and_cast schema rawr = .ok r) :
    r.map Prod.fst = schema.map Field.name ∧
    ∀ f ∈ schema, ∃ raw, WidgetRaw raw ∧
      castValue f.name f.ftype raw = .ok (valueAt r f) := by
  obtain ⟨rawr, hwr, hv⟩ := hwf
  obtain ⟨hkeys, _, hlook⟩ := vcLoop_ok_spec rawr schema [] r hnd (by simp) hv
  refine ⟨by simpa using hkeys, ?_⟩
  intro f hf
  obtain ⟨v, hcast, hl⟩ := hlook f hf
  have hva : valueAt r f = v := by
    unfold valueAt
    rw [hl]
  refine ⟨dictGetRaw rawr f.name, ?_, by rw [hva]; exact hcast⟩
  unfold dictGetRaw
  cases hlk : rawr.lookup f.name with
  | none => trivial
  | some x => exact hwr _ (mem_of_lookup_eq_some rawr f.name x hlk)

lemma accepted_map {α : Type} (schema : List Field) (is : List α)
    (D : α → RawRow) (R : α → Row)
    (h : ∀ i ∈ is, validate_and_cast schema (D i) = .ok (R i)) :
    acceptedRows schema (is.map D) = is.map R ∧
    rejectedMsgs schema (is.map D) = [] := by
  induction is with
  | nil => exact ⟨rfl, rfl⟩
  | cons i t ih =>
    obtain ⟨ha, hr⟩ := ih fun j hj => h j (by simp [hj])
    constructor
    · simp [acceptedRows, List.filterMap_cons, h i (by simp), Except.toOption] at ha ⊢
      exact ha
    · simp [rejectedMsgs, List.filterMap_cons, h i (by simp)] at hr ⊢
      exact hr

/-- The text-column case of the reconstruction. -/
lemma column_reconstruct_text (f : Field) (rows : List Row)
    (hval : ∀ r ∈ rows, ∃ raw, WidgetRaw raw ∧
      castValue f.name f.ftype raw = .ok (valueAt r f))
    (hnonnull : ∀ r ∈ rows, valueAt r f ≠ .null)
    (htextA : ∀ r ∈ rows, ∀ s, valueAt r f = .str s → s ∉ naTokens)
    (htextB : (f.ftype = .shortText ∨ f.ftype = .longText) → rows ≠ [] →
      ∃ r ∈ rows, ∃ s, valueAt r f = .str s ∧ parseFloat s = Option.none)
    (htextC : (f.ftype = .shortText ∨ f.ftype = .longText) → rows ≠ [] →
      ∃ r ∈ rows, ∃ s, valueAt r f = .str s ∧ parseBoolToken s = Option.none)
    (hor : f.ftype = .shortText ∨ f.ftype = .longText) :
    inferColumn (rows.map fun r => exportCell (valueAt r f)) = rows.map (rawBack f) ∧
    ∀ r ∈ rows, castValue f.name f.ftype (rawBack f r) = .ok (valueAt r f) ∧
      exportCell (valueAt r f) ≠ "" := by
  have hstr : ∀ r ∈ rows, ∃ s, valueAt r f = .str s ∧ pyStrip s ≠ "" ∧
      s ∉ naTokens := by
    intro r hr
    obtain ⟨raw, hw, hc⟩ := hval r hr
    rcases castValue_text_classify f.name f.ftype hor raw _ hw hc with
      hnull | ⟨s, hv2, hs⟩
    · exact absurd hnull (hnonnull r hr)
    · exact ⟨s, hv2, hs, htextA r hr s hv2⟩
  have hcells : (rows.map fun r => exportCell (valueAt r f)) =
      rows.map (strAt f) := by
    refine List.map_congr_left fun r hr => ?_
    obtain ⟨s, hv2, _, _⟩ := hstr r hr
    rw [show strAt f r = s from by unfold strAt; rw [hv2], hv2]
    rfl
  constructor
  · rw [hcells]
    cases rows with
    | nil => rfl
    | cons r0 rs =>
      obtain ⟨rb, hrb, s0, hv0, hp0⟩ := htextB hor (by simp)
      obtain ⟨rb2, hrb2, s1, hv1, hp1⟩ := htextC hor (by simp)
      have hobj := inferColumn_object ((r0 :: rs).map (strAt f))
        (by
          intro c hc
          rw [List.mem_map] at hc
          obtain ⟨r, hr, rfl⟩ := hc
          obtain ⟨s, hv2, _, hna⟩ := hstr r hr
          rw [show strAt f r = s from by unfold strAt; rw [hv2]]
          exact hna)
        (strAt f rb) (List.mem_map_of_mem _ hrb)
        (by
          rw [show strAt f rb = s0 from by unfold strAt; rw [hv0]]
          exact hp0)
        (strAt f rb2) (List.mem_map_of_mem _ hrb2)
        (by
          rw [show strAt f rb2 = s1 from by unfold strAt; rw [hv1]]
          exact hp1)
      rw [hobj]
      rw [List.map_map]
      refine List.map_congr_left fun r hr => ?_
      obtain ⟨s, hv2, _, _⟩ := hstr r hr
      show Raw.str (strAt f r) = rawBack f r
      rw [show strAt f r = s from by unfold strAt; rw [hv2]]
      unfold rawBack
      rw [hv2]
  · intro r hr
    obtain ⟨s, hv2, hs, _⟩ := hstr r hr
    have hrb : rawBack f r = Raw.str s := by
      unfold rawBack
      rw [hv2]
    refine ⟨?_, ?_⟩
    · rw [hrb, castValue_text_str f.name f.ftype hor s hs, hv2]
    · rw [hv2]
      show s ≠ ""
      intro he
      subst he
      exact hs rfl

/-- Everything true of a single reconstructed column, by field type. -/
lemma column_reconstruct (f : Field) (rows : List Row)
    (hval : ∀ r ∈ rows, ∃ raw, WidgetRaw raw ∧
      castValue f.name f.ftype raw = .ok (valueAt r f))
    (hnonnull : ∀ r ∈ rows, valueAt r f ≠ .null)
    (hnonnan : ∀ r ∈ rows, valueAt r f ≠ .num .nan)
    (htextA : ∀ r ∈ rows, ∀ s, valueAt r f = .str s → s ∉ naTokens)
    (htextB : (f.ftype = .shortText ∨ f.ftype = .longText) → rows ≠ [] →
      ∃ r ∈ rows, ∃ s, valueAt r f = .str s ∧ parseFloat s = Option.none)
    (htextC : (f.ftype = .shortText ∨ f.ftype = .longText) → rows ≠ [] →
      ∃ r ∈ rows, ∃ s, valueAt r f = .str s ∧ parseBoolToken s = Option.none)
    (hdate : ∀ r ∈ rows, ∀ dd, valueAt r f = .date dd →
      validDate dd = true ∧ dateLE tsMinDate dd = true ∧ dateLE dd tsMaxDate = true) :
    inferColumn (rows.map fun r => exportCell (valueAt r f)) = rows.map (rawBack f) ∧
    ∀ r ∈ rows, castValue f.name f.ftype (rawBack f r) = .ok (valueAt r f) ∧
      exportCell (valueAt r f) ≠ "" := by
  cases hft : f.ftype with
  | number =>
    have hnum : ∀ r ∈ rows, ∃ fl, valueAt r f = .num fl ∧ GoodFloat fl ∧ fl ≠ .nan := by
      intro r hr
      obtain ⟨raw, hw, hc⟩ := hval r hr
      rw [hft] at hc
      rcases castValue_number_classify _ _ _ hw hc with hnull | ⟨fl, hfl, hg⟩
      · exact absurd hnull (hnonnull r hr)
      · refine ⟨fl, hfl, hg, ?_⟩
        rintro rfl
        exact hnonnan r hr hfl
    have hcells : (rows.map fun r => exportCell (valueAt r f)) =
        (rows.map (floatAt f)).map fun fl => String.mk (reprFloat fl) := by
      rw [List.map_map]
      refine List.map_congr_left fun r hr => ?_
      obtain ⟨fl, hfl, _, hnn⟩ := hnum r hr
      show exportCell (valueAt r f) = String.mk (reprFloat (floatAt f r))
      rw [show floatAt f r = fl from by unfold floatAt; rw [hfl], hfl,
        exportCell_num fl hnn]
    constructor
    · rw [hcells, inferColumn_floats (rows.map (floatAt f))
        (by
          intro fl hfl2
          rw [List.mem_map] at hfl2
          obtain ⟨r, hr, rfl⟩ := hfl2
          obtain ⟨fl, hfl, hg, _⟩ := hnum r hr
          rw [show floatAt f r = fl from by unfold floatAt; rw [hfl]]
          exact hg)
        (by
          intro fl hfl2
          rw [List.mem_map] at hfl2
          obtain ⟨r, hr, rfl⟩ := hfl2
          obtain ⟨fl, hfl, _, hnn⟩ := hnum r hr
          rw [show floatAt f r = fl from by unfold floatAt; rw [hfl]]
          exact hnn)]
      rw [List.map_map]
      refine List.map_congr_left fun r hr => ?_
      obtain ⟨fl, hfl, _, _⟩ := hnum r hr
      show Raw.num (floatAt f r) = rawBack f r
      rw [show floatAt f r = fl from by unfold floatAt; rw [hfl]]
      unfold rawBack
      rw [hfl]
    · intro r hr
      obtain ⟨fl, hfl, _, hnn⟩ := hnum r hr
      have hrb : rawBack f r = Raw.num fl := by
        unfold rawBack
        rw [hfl]
      refine ⟨?_, by rw [hfl]; exact exportCell_num_ne fl hnn⟩
      rw [hrb, castValue_number_num, hfl]
  | date =>
    have hdd : ∀ r ∈ rows, ∃ dd, valueAt r f = .date dd ∧ validDate dd = true ∧
        dateLE tsMinDate dd = true ∧ dateLE dd tsMaxDate = true := by
      intro r hr
      obtain ⟨raw, hw, hc⟩ := hval r hr
      rw [hft] at hc
      rcases castValue_date_classify _ _ _ hw hc with hnull | ⟨dd, hv2⟩
      · exact absurd hnull (hnonnull r hr)
      · obtain ⟨q1, q2, q3⟩ := hdate r hr dd hv2
        exact ⟨dd, hv2, q1, q2, q3⟩
    have hcells : (rows.map fun r => exportCell (valueAt r f)) =
        rows.map fun r => isoDate (dateAt f r) := by
      refine List.map_congr_left fun r hr => ?_
      obtain ⟨dd, hv2, _⟩ := hdd r hr
      rw [show dateAt f r = dd from by unfold dateAt; rw [hv2], hv2]
      rfl
    constructor
    · rw [hcells]
      have hobj := inferColumn_object (rows.map fun r => isoDate (dateAt f r))
        (by
          intro c hc
          rw [List.mem_map] at hc
          obtain ⟨r, hr, rfl⟩ := hc
          exact plain_not_naToken _ (iso_ne_nil _) (iso_plain _))
      cases rows with
      | nil => rfl
      | cons r0 rs =>
        obtain ⟨dd, hv2, _⟩ := hdd r0 (by simp)
        rw [hobj (isoDate (dateAt f r0))
          (List.mem_map_of_mem _ (by simp))
          (by
            show parseFloatL (isoDate (dateAt f r0)).data = none
            exact parseFloatL_iso (dateAt f r0))
          (isoDate (dateAt f r0))
          (List.mem_map_of_mem _ (by simp))
          (plain_not_boolToken _ (iso_plain (dateAt f r0)))]
        rw [List.map_map]
        refine List.map_congr_left fun r hr => ?_
        obtain ⟨dd2, hv3, _⟩ := hdd r hr
        show Raw.str (isoDate (dateAt f r)) = rawBack f r
        rw [show dateAt f r = dd2 from by unfold dateAt; rw [hv3]]
        unfold rawBack
        rw [hv3]
    · intro r hr
      obtain ⟨dd, hv2, q1, q2, q3⟩ := hdd r hr
      have hrb : rawBack f r = Raw.str (isoDate dd) := by
        unfold rawBack
        rw [hv2]
      refine ⟨?_, ?_⟩
      · rw [hrb, castValue_date_iso f.name dd q1 q2 q3, hv2]
      · rw [hv2]
        show String.mk (isoDateChars dd) ≠ ""
        intro he
        exact iso_ne_nil dd (congrArg String.data he)
  | shortText =>
    rw [← hft]
    exact column_reconstruct_text f rows hval hnonnull htextA htextB htextC (Or.inl hft)
  | longText =>
    rw [← hft]
    exact column_reconstruct_text f rows hval hnonnull htextA htextB htextC (Or.inr hft)


/-! Reassembling the exported file through the reader. -/

lemma getD_lt {α : Type} (l : List α) (d : α) (i : ℕ) (h : i < l.length) :
    l.getD i d = l[i] := by
  rw [List.getD_eq_getElem?_getD, List.getElem?_eq_getElem h]
  rfl

lemma range_map_eq_map {α β : Type} (l : List α) (F : ℕ → β) (g : α → β)
    (h : ∀ j, ∀ hj : j < l.length, F j = g l[j]) :
    (List.range l.length).map F = l.map g := by
  apply List.ext_getElem
  · simp
  · intro i h1 h2
    simp only [List.getElem_map, List.getElem_range]
    exact h i (by simpa using h2)

/-- Reading the exported file back: when no exported cell is the empty
string, the parsed frame is one inferred column per schema field, in schema
order, each over the column's exported cells. -/
lemma readCsv_export (schema : List Field) (rows : List Row)
    (hcell : ∀ r ∈ rows, ∀ f ∈ schema, exportCell (valueAt r f) ≠ "") :
    readCsvE (exportCsvFile schema rows) =
      .ok (schema.map fun f =>
        (f.name, inferColumn (rows.map fun r => exportCell (valueAt r f)))) := by
  have hfilter : ((rows.map fun r => schema.map fun f => exportCell (valueAt r f)).filter
      fun r => decide (r ≠ [""])) =
      rows.map fun r => schema.map fun f => exportCell (valueAt r f) := by
    rw [List.filter_eq_self]
    intro rec hrec
    rw [List.mem_map] at hrec
    obtain ⟨r, hr, rfl⟩ := hrec
    simp only [decide_eq_true_eq]
    intro he
    cases schema with
    | nil => simp at he
    | cons f rest =>
      cases rest with
      | nil =>
        simp only [List.map_cons, List.map_nil, List.cons.injEq, and_true] at he
        exact hcell r hr f (by simp) he
      | cons f2 rest2 =>
        have hlen := congrArg List.length he
        simp at hlen
  have hany : ((rows.map fun r => schema.map fun f => exportCell (valueAt r f)).any
      fun r => decide ((schema.map Field.name).length < r.length)) = false := by
    rw [List.any_eq_false]
    intro rec hrec
    rw [List.mem_map] at hrec
    obtain ⟨r, hr, rfl⟩ := hrec
    simp
  show (if ((rows.map fun r => schema.map fun f => exportCell (valueAt r f)).filter fun r =>
        decide (r ≠ [""])).any (fun r => decide ((schema.map Field.name).length < r.length)) then
      (Except.error "Error tokenizing data." : Except String Df)
    else
      Except.ok ((List.range (schema.map Field.name).length).map fun j =>
        ((schema.map Field.name).getD j "",
          inferColumn (((rows.map fun r => schema.map fun f => exportCell (valueAt r f)).filter
            fun r => decide (r ≠ [""])).map fun r => r.getD j "")))) = _
  rw [hfilter, hany]
  simp only [Bool.false_eq_true, if_false]
  refine congrArg Except.ok ?_
  rw [List.length_map]
  refine range_map_eq_map schema _ _ ?_
  intro j hj
  rw [getD_map schema Field.name j "" hj]
  have hc : ((rows.map fun r => schema.map fun f => exportCell (valueAt r f)).map
      fun r => r.getD j "") = rows.map fun r => exportCell (valueAt r schema[j]) := by
    rw [List.map_map]
    refine List.map_congr_left fun r hr => ?_
    show (schema.map fun f => exportCell (valueAt r f)).getD j "" = _
    rw [getD_map schema (fun f => exportCell (valueAt r f)) j "" hj]
  rw [hc]

/-- A successful (no missing columns) pass through `importDf`. -/
lemma importDf_header_ok (schema : List Field) (rows0 : List Row) (df : Df)
    (hheader : ∀ c ∈ schema.map Field.name, c ∈ dfColNames df) :
    importDf ⟨schema, rows0⟩ df =
      (⟨schema, rows0 ++ acceptedRows schema
          (rowDicts (dfProject df (schema.map Field.name)))⟩,
        .report (acceptedRows schema
            (rowDicts (dfProject df (schema.map Field.name)))).length
          ((rejectedMsgs schema
            (rowDicts (dfProject df (schema.map Field.name)))).take 5)) := by
  have hmiss : ((schema.map Field.name).filter
      fun c => decide (c ∉ dfColNames df)) = [] := by
    rw [List.filter_eq_nil_iff]
    intro c hc
    simp [hheader c hc]
  simp only [importDf]
  rw [hmiss]
  simp [importLoop_spec]


/-- C1 (amended): the CSV round trip is the identity on stores without
missing data. For a committed schema (nonempty, distinct names) and rows all
produced by successful widget submissions, in which no stored value is
`null` or the float `NaN`, no text value is one of pandas' missing-data
tokens, every text column holds (when any rows exist) at least one value
that does not parse as a float and at least one value that is not one of
pandas' bool tokens (the case variants of `True`/`False`), and every date
lies in pandas' `Timestamp` range, exporting the store with `to_csv` and
re-importing the file against
the same schema into an empty store reproduces exactly the original ordered
rows, reporting them all added with no errors. (The unamended claim is
false: `c1_roundtrip_counterexample` shows a `null` coming back as the
string `"nan"`.) -/
theorem c1_round_trip (schema : List Field) (rows : List Row)
    (hne : schema ≠ [])
    (hnd : (schema.map Field.name).Nodup)
    (hwf : ∀ r ∈ rows, ∃ rawr : RawRow, (∀ p ∈ rawr, WidgetRaw p.2) ∧
      validate_and_cast schema rawr = .ok r)
    (hnonnull : ∀ r ∈ rows, ∀ f ∈ schema, valueAt r f ≠ .null)
    (hnonnan : ∀ r ∈ rows, ∀ f ∈ schema, valueAt r f ≠ .num .nan)
    (htextA : ∀ r ∈ rows, ∀ f ∈ schema, ∀ s, valueAt r f = .str s → s ∉ naTokens)
    (htextB : ∀ f ∈ schema, (f.ftype = .shortText ∨ f.ftype = .longText) →
      rows ≠ [] → ∃ r ∈ rows, ∃ s, valueAt r f = .str s ∧ parseFloat s = Option.none)
    (htextC : ∀ f ∈ schema, (f.ftype = .shortText ∨ f.ftype = .longText) →
      rows ≠ [] → ∃ r ∈ rows, ∃ s, valueAt r f = .str s ∧
        parseBoolToken s = Option.none)
    (hdate : ∀ r ∈ rows, ∀ f ∈ schema, ∀ dd, valueAt r f = .date dd →
      validDate dd = true ∧ dateLE tsMinDate dd = true ∧ dateLE dd tsMaxDate = true) :
    uploadCsv ⟨schema, []⟩ (exportCsvFile schema rows) =
      (⟨schema, rows⟩, .report rows.length []) := by
  have hrowfacts := fun r hr => store_row_facts schema r hnd (hwf r hr)
  have hcol : ∀ f ∈ schema,
      inferColumn (rows.map fun r => exportCell (valueAt r f)) = rows.map (rawBack f) ∧
      ∀ r ∈ rows, castValue f.name f.ftype (rawBack f r) = .ok (valueAt r f) ∧
        exportCell (valueAt r f) ≠ "" := by
    intro f hf
    exact column_reconstruct f rows
      (fun r hr => (hrowfacts r hr).2 f hf)
      (fun r hr => hnonnull r hr f hf)
      (fun r hr => hnonnan r hr f hf)
      (fun r hr => htextA r hr f hf)
      (htextB f hf)
      (htextC f hf)
      (fun r hr => hdate r hr f hf)
  have hcell : ∀ r ∈ rows, ∀ f ∈ schema, exportCell (valueAt r f) ≠ "" :=
    fun r hr f hf => ((hcol f hf).2 r hr).2
  have hread := readCsv_export schema rows hcell
  have hdf : (schema.map fun f =>
      (f.name, inferColumn (rows.map fun r => exportCell (valueAt r f)))) =
      schema.map fun f => (f.name, rows.map (rawBack f)) :=
    List.map_congr_left fun f hf => by rw [(hcol f hf).1]
  rw [hdf] at hread
  have hAnames : ((schema.map fun f => (f.name, rows.map (rawBack f))).map Prod.fst) =
      schema.map Field.name := by
    rw [List.map_map]
    rfl
  have hnames : dfColNames (schema.map fun f => (f.name, rows.map (rawBack f))) =
      schema.map Field.name := hAnames
  have hheader : ∀ c ∈ schema.map Field.name,
      c ∈ dfColNames (schema.map fun f => (f.name, rows.map (rawBack f))) := by
    intro c hc
    rw [hnames]
    exact hc
  have hproj : dfProject (schema.map fun f => (f.name, rows.map (rawBack f)))
      (schema.map Field.name) = schema.map fun f => (f.name, rows.map (rawBack f)) := by
    rw [← hAnames]
    exact dfProject_self _ (by rw [hAnames]; exact hnd)
  have hcount : dfRowCount (schema.map fun f => (f.name, rows.map (rawBack f))) =
      rows.length := by
    unfold dfRowCount
    rw [List.map_map]
    refine foldr_max_const _ _ (by simp [hne]) ?_
    intro x hx
    rw [List.mem_map] at hx
    obtain ⟨f, hf, rfl⟩ := hx
    simp
  have hdicts : rowDicts (schema.map fun f => (f.name, rows.map (rawBack f))) =
      (List.range rows.length).map fun i =>
        schema.map fun f => (f.name, rawBack f (rows.getD i [])) := by
    unfold rowDicts
    rw [hcount]
    refine List.map_congr_left fun i hi => ?_
    rw [List.mem_range] at hi
    rw [List.map_map]
    refine List.map_congr_left fun f hf => ?_
    show (f.name, (rows.map (rawBack f)).getD i Raw.none) =
      (f.name, rawBack f (rows.getD i []))
    rw [getD_map rows (rawBack f) i Raw.none hi, getD_lt rows [] i hi]
  have hvalid : ∀ i ∈ List.range rows.length,
      validate_and_cast schema
        (schema.map fun f => (f.name, rawBack f (rows.getD i []))) =
        .ok (rows.getD i []) := by
    intro i hi
    rw [List.mem_range] at hi
    have hmem : rows.getD i [] ∈ rows := by
      rw [getD_lt rows [] i hi]
      exact rows.getElem_mem hi
    show vcLoop (schema.map fun f => (f.name, rawBack f (rows.getD i []))) schema [] = _
    rw [vcLoop_all_ok _ schema (valueAt (rows.getD i []))
      (by
        intro f hf
        rw [show dictGetRaw (schema.map fun g => (g.name, rawBack g (rows.getD i [])))
            f.name = rawBack f (rows.getD i []) from by
          unfold dictGetRaw
          rw [lookup_schema_map schema (fun g => rawBack g (rows.getD i [])) hnd f hf]]
        exact ((hcol f hf).2 (rows.getD i []) hmem).1)
      [] (by simp) hnd]
    rw [List.nil_append]
    rw [← row_eta schema (rows.getD i []) (hrowfacts _ hmem).1 hnd]
  obtain ⟨hacc, hrej⟩ := accepted_map schema (List.range rows.length)
    (fun i => schema.map fun f => (f.name, rawBack f (rows.getD i [])))
    (fun i => rows.getD i []) hvalid
  unfold uploadCsv
  rw [hread]
  show importDf ⟨schema, []⟩ (schema.map fun f => (f.name, rows.map (rawBack f))) = _
  rw [importDf_header_ok schema [] _ hheader]
  rw [hproj, hdicts, hacc, hrej, map_range_getD rows []]
  simp


/-- C1 is false as stated: a store built by `submitRow` holding a `null`
(an empty text cell) does not survive the round trip — its exported empty
cell is read back by pandas as `NaN`, which the text cast turns into the
string `"nan"`. -/
theorem c1_roundtrip_counterexample :
    (submitRow ⟨[⟨"a", FType.shortText⟩, ⟨"b", FType.number⟩], []⟩
        [("a", Raw.str ""), ("b", Raw.str "5")]).rows =
      [[("a", Value.null), ("b", Value.num (.fin 5 0))]] ∧
    (uploadCsv ⟨[⟨"a", FType.shortText⟩, ⟨"b", FType.number⟩], []⟩
        (exportCsvFile [⟨"a", FType.shortText⟩, ⟨"b", FType.number⟩]
          [[("a", Value.null), ("b", Value.num (.fin 5 0))]])).1.rows =
      [[("a", Value.str "nan"), ("b", Value.num (.fin 5 0))]] ∧
    Value.str "nan" ≠ Value.null := by
  refine ⟨by decide, by decide, by decide⟩


theorem c1_round_trip_witness :
    uploadCsv ⟨[⟨"name", FType.shortText⟩, ⟨"age", FType.number⟩,
        ⟨"joined", FType.date⟩], []⟩
      (exportCsvFile
        [⟨"name", FType.shortText⟩, ⟨"age", FType.number⟩, ⟨"joined", FType.date⟩]
        [[("name", Value.str "alice"), ("age", Value.num (.fin 305 1)),
            ("joined", Value.date ⟨2023, 1, 5⟩)],
         [("name", Value.str "bob"), ("age", Value.num (.fin 4 0)),
            ("joined", Value.date ⟨1999, 12, 31⟩)]]) =
    (⟨[⟨"name", FType.shortText⟩, ⟨"age", FType.number⟩, ⟨"joined", FType.date⟩],
        [[("name", Value.str "alice"), ("age", Value.num (.fin 305 1)),
            ("joined", Value.date ⟨2023, 1, 5⟩)],
         [("name", Value.str "bob"), ("age", Value.num (.fin 4 0)),
            ("joined", Value.date ⟨1999, 12, 31⟩)]]⟩,
      .report 2 []) := by
  have h := c1_round_trip
    [⟨"name", FType.shortText⟩, ⟨"age", FType.number⟩, ⟨"joined", FType.date⟩]
    [[("name", Value.str "alice"), ("age", Value.num (.fin 305 1)),
        ("joined", Value.date ⟨2023, 1, 5⟩)],
     [("name", Value.str "bob"), ("age", Value.num (.fin 4 0)),
        ("joined", Value.date ⟨1999, 12, 31⟩)]]
    (by decide) (by decide)
    (by
      intro r hr
      simp only [List.mem_cons, List.not_mem_nil, or_false] at hr
      rcases hr with rfl | rfl
      · refine ⟨[("name", Raw.str "alice"), ("age", Raw.str "30.5"),
          ("joined", Raw.date ⟨2023, 1, 5⟩)], ?_, by decide⟩
        intro p hp
        simp only [List.mem_cons, List.not_mem_nil, or_false] at hp
        rcases hp with rfl | rfl | rfl <;> trivial
      · refine ⟨[("name", Raw.str "bob"), ("age", Raw.str "4"),
          ("joined", Raw.date ⟨1999, 12, 31⟩)], ?_, by decide⟩
        intro p hp
        simp only [List.mem_cons, List.not_mem_nil, or_false] at hp
        rcases hp with rfl | rfl | rfl <;> trivial)
    (by decide) (by decide)
    (by
      intro r hr f hf s2 hs
      simp only [List.mem_cons, List.not_mem_nil, or_false] at hr hf
      rcases hr with rfl | rfl <;> rcases hf with rfl | rfl | rfl
      · rw [show valueAt [("name", Value.str "alice"), ("age", Value.num (.fin 305 1)),
            ("joined", Value.date ⟨2023, 1, 5⟩)] ⟨"name", FType.shortText⟩ =
            Value.str "alice" from by decide] at hs
        injection hs with h2
        subst h2
        decide
      · rw [show valueAt [("name", Value.str "alice"), ("age", Value.num (.fin 305 1)),
            ("joined", Value.date ⟨2023, 1, 5⟩)] ⟨"age", FType.number⟩ =
            Value.num (.fin 305 1) from by decide] at hs
        cases hs
      · rw [show valueAt [("name", Value.str "alice"), ("age", Value.num (.fin 305 1)),
            ("joined", Value.date ⟨2023, 1, 5⟩)] ⟨"joined", FType.date⟩ =
            Value.date ⟨2023, 1, 5⟩ from by decide] at hs
        cases hs
      · rw [show valueAt [("name", Value.str "bob"), ("age", Value.num (.fin 4 0)),
            ("joined", Value.date ⟨1999, 12, 31⟩)] ⟨"name", FType.shortText⟩ =
            Value.str "bob" from by decide] at hs
        injection hs with h2
        subst h2
        decide
      · rw [show valueAt [("name", Value.str "bob"), ("age", Value.num (.fin 4 0)),
            ("joined", Value.date ⟨1999, 12, 31⟩)] ⟨"age", FType.number⟩ =
            Value.num (.fin 4 0) from by decide] at hs
        cases hs
      · rw [show valueAt [("name", Value.str "bob"), ("age", Value.num (.fin 4 0)),
            ("joined", Value.date ⟨1999, 12, 31⟩)] ⟨"joined", FType.date⟩ =
            Value.date ⟨1999, 12, 31⟩ from by decide] at hs
        cases hs)
    (by
      intro f hf hor _
      simp only [List.mem_cons, List.not_mem_nil, or_false] at hf
      rcases hf with rfl | rfl | rfl
      · refine ⟨[("name", Value.str "alice"), ("age", Value.num (.fin 305 1)),
          ("joined", Value.date ⟨2023, 1, 5⟩)], by decide, "alice", by decide, by decide⟩
      · rcases hor with h2 | h2 <;> cases h2
      · rcases hor with h2 | h2 <;> cases h2)
    (by
      intro f hf hor _
      simp only [List.mem_cons, List.not_mem_nil, or_false] at hf
      rcases hf with rfl | rfl | rfl
      · refine ⟨[("name", Value.str "alice"), ("age", Value.num (.fin 305 1)),
          ("joined", Value.date ⟨2023, 1, 5⟩)], by decide, "alice", by decide, by decide⟩
      · rcases hor with h2 | h2 <;> cases h2
      · rcases hor with h2 | h2 <;> cases h2)
    (by
      intro r hr f hf dd hdd
      simp only [List.mem_cons, List.not_mem_nil, or_false] at hr hf
      rcases hr with rfl | rfl <;> rcases hf with rfl | rfl | rfl
      · rw [show valueAt [("name", Value.str "alice"), ("age", Value.num (.fin 305 1)),
            ("joined", Value.date ⟨2023, 1, 5⟩)] ⟨"name", FType.shortText⟩ =
            Value.str "alice" from by decide] at hdd
        cases hdd
      · rw [show valueAt [("name", Value.str "alice"), ("age", Value.num (.fin 305 1)),
            ("joined", Value.date ⟨2023, 1, 5⟩)] ⟨"age", FType.number⟩ =
            Value.num (.fin 305 1) from by decide] at hdd
        cases hdd
      · rw [show valueAt [("name", Value.str "alice"), ("age", Value.num (.fin 305 1)),
            ("joined", Value.date ⟨2023, 1, 5⟩)] ⟨"joined", FType.date⟩ =
            Value.date ⟨2023, 1, 5⟩ from by decide] at hdd
        injection hdd with h2
        subst h2
        refine ⟨by decide, by decide, by decide⟩
      · rw [show valueAt [("name", Value.str "bob"), ("age", Value.num (.fin 4 0)),
            ("joined", Value.date ⟨1999, 12, 31⟩)] ⟨"name", FType.shortText⟩ =
            Value.str "bob" from by decide] at hdd
        cases hdd
      · rw [show valueAt [("name", Value.str "bob"), ("age", Value.num (.fin 4 0)),
            ("joined", Value.date ⟨1999, 12, 31⟩)] ⟨"age", FType.number⟩ =
            Value.num (.fin 4 0) from by decide] at hdd
        cases hdd
      · rw [show valueAt [("name", Value.str "bob"), ("age", Value.num (.fin 4 0)),
            ("joined", Value.date ⟨1999, 12, 31⟩)] ⟨"joined", FType.date⟩ =
            Value.date ⟨1999, 12, 31⟩ from by decide] at hdd
        injection hdd with h2
        subst h2
        refine ⟨by decide, by decide, by decide⟩)
  exact h

end DataApk
